import Mathlib

/-!
# go-agent: request composition for the OpenAI provider and the calculator tool

A shallow embedding of `src/models/openai.go` (`getOpenAIMimeType`,
`OpenAILLM.Generate`, `OpenAILLM.GenerateWithFiles`) and of
`cmd/example/interactive_chat/main.go` (`CalculatorTool.Invoke`).

Go strings are modelled by Lean strings (sequences of Unicode scalar values,
i.e. valid UTF-8 text); byte slices by lists of `Fin 256`; a `float64` by
its sign, significand and exponent, with round-to-nearest-even arithmetic.
A method that ends in a call of `CreateChatCompletion` is modelled by the
request it passes to that call.

The helpers of package `models` that are not among the sources, and
`json.Number.Float64`, are parameters of the definitions.
-/

namespace GoAgent

/-! ## Go standard library: `strings` -/

/-- Go `strings.HasPrefix`. -/
def HasPrefix (s pre : String) : Bool :=
  pre.data.isPrefixOf s.data

/-- Go `unicode.IsSpace`: the Latin-1 spaces and the code points with the
Unicode White_Space property. -/
def isSpace (c : Char) : Bool :=
  let n := c.toNat
  n == 0x09 || n == 0x0A || n == 0x0B || n == 0x0C || n == 0x0D || n == 0x20 ||
  n == 0x85 || n == 0xA0 || n == 0x1680 || (0x2000 ≤ n && n ≤ 0x200A) ||
  n == 0x2028 || n == 0x2029 || n == 0x202F || n == 0x205F || n == 0x3000

/-- Go `strings.TrimSpace`: drops leading and trailing white space. -/
def TrimSpace (s : String) : String :=
  String.mk ((s.data.dropWhile isSpace).reverse.dropWhile isSpace).reverse

/-- Go `strings.ToLower`: ASCII letters are lowered directly, every other
rune goes through `unicode.ToLower`, whose table is the parameter `uni`. -/
def ToLower (uni : Char → Char) (s : String) : String :=
  String.mk (s.data.map (fun c => if c.toNat < 128 then c.toLower else uni c))

/-! ## Go standard library: `encoding/base64` (`StdEncoding`) -/

/-- A Go `byte`. -/
abbrev Byte := Fin 256

/-- The alphabet of `base64.StdEncoding`. -/
def encodeStd : String :=
  "ABCDEFGHIJKLMNOPQRSTUVWXYZabcdefghijklmnopqrstuvwxyz0123456789+/"

/-- The character of the 6-bit value `i`. -/
def b64Char (i : Nat) : Char := encodeStd.data.getD i '='

/-- The characters of the padded standard encoding: three bytes give four
characters, a final group of one or two bytes is padded with `=`. -/
def base64Encode : List Byte → List Char
  | [] => []
  | [a] =>
    let v := a.val * 65536
    [b64Char (v / 262144), b64Char (v / 4096 % 64), '=', '=']
  | [a, b] =>
    let v := a.val * 65536 + b.val * 256
    [b64Char (v / 262144), b64Char (v / 4096 % 64), b64Char (v / 64 % 64), '=']
  | a :: b :: c :: rest =>
    let v := a.val * 65536 + b.val * 256 + c.val
    b64Char (v / 262144) :: b64Char (v / 4096 % 64) :: b64Char (v / 64 % 64) ::
      b64Char (v % 64) :: base64Encode rest

/-- Go `base64.StdEncoding.EncodeToString`. -/
def EncodeToString (src : List Byte) : String := String.mk (base64Encode src)

/-- The 6-bit value of an alphabet character. -/
def b64Index (c : Char) : Option Nat :=
  let i := encodeStd.data.indexOf c
  if i < 64 then some i else none

/-- The low eight bits of `n`. -/
def byteOf (n : Nat) : Byte := ⟨n % 256, Nat.mod_lt _ (by decide)⟩

/-- The decoder for groups of four characters, padding allowed in the last
group only. -/
def base64Decode : List Char → Option (List Byte)
  | [] => some []
  | c0 :: c1 :: c2 :: c3 :: rest =>
    match b64Index c0, b64Index c1 with
    | some i0, some i1 =>
      if c2 = '=' then
        if c3 = '=' ∧ rest = [] then some [byteOf (i0 * 4 + i1 / 16)] else none
      else
        match b64Index c2 with
        | none => none
        | some i2 =>
          if c3 = '=' then
            if rest = [] then some [byteOf (i0 * 4 + i1 / 16), byteOf (i1 % 16 * 16 + i2 / 4)]
            else none
          else
            match b64Index c3 with
            | none => none
            | some i3 =>
              (base64Decode rest).map (fun t =>
                byteOf (i0 * 4 + i1 / 16) :: byteOf (i1 % 16 * 16 + i2 / 4) ::
                  byteOf (i2 % 4 * 64 + i3) :: t)
    | _, _ => none
  | _ => none

/-- Go `base64.StdEncoding.DecodeString`: carriage returns and line feeds
are skipped, anything else outside the padded alphabet is an error. -/
def DecodeString (s : String) : Option (List Byte) :=
  base64Decode (s.data.filter (fun c => c ≠ '\r' ∧ c ≠ '\n'))

/-- The text of `s` after its last comma (all of `s` when it has none). -/
def textAfterLastComma (s : String) : String :=
  String.mk (s.data.reverse.takeWhile (fun c => c ≠ ',')).reverse

/-! ## `src/models/openai.go` -/

/-- The attachment type `File` of package `models`. -/
structure File where
  Name : String
  MIME : String
  Data : List Byte
  deriving DecidableEq

/-- The helpers of package `models` that `openai.go` calls but does not
define (`normalizeMIME`, `isImageOrVideoMIME`, `isTextMIME`,
`combinePromptWithFiles`), together with the case table of
`unicode.ToLower`. They are fixed but arbitrary functions. -/
structure Env where
  normalizeMIME : String → String → String
  isImageOrVideoMIME : String → Bool
  isTextMIME : String → Bool
  combinePromptWithFiles : String → List File → String
  unicodeToLower : Char → Char

/-- The string `mt` after `strings.ToLower(strings.TrimSpace(mt))`, the
first statement of `getOpenAIMimeType`. -/
def canonMime (uni : Char → Char) (mt : String) : String :=
  ToLower uni (TrimSpace mt)

/-- The function `getOpenAIMimeType` (openai.go, lines 78-102). -/
def getOpenAIMimeType (uni : Char → Char) (mt : String) : String :=
  let mt := ToLower uni (TrimSpace mt)
  if HasPrefix mt "image/" then
    if mt = "image/jpeg" ∨ mt = "image/jpg" then "image/jpeg"
    else if mt = "image/png" then "image/png"
    else if mt = "image/gif" then "image/gif"
    else if mt = "image/webp" then "image/webp"
    else ""
  else if HasPrefix mt "video/" then mt
  else ""

/-- The type `openai.ChatMessagePartType`. -/
inductive ChatMessagePartType where
  | Text
  | ImageURL
  deriving DecidableEq

/-- The type `openai.ImageURLDetail`; `unset` is the zero value. -/
inductive ImageURLDetail where
  | unset
  | Auto
  deriving DecidableEq

/-- The type `openai.ChatMessageImageURL`. -/
structure ChatMessageImageURL where
  URL : String
  Detail : ImageURLDetail
  deriving DecidableEq

/-- The type `openai.ChatMessagePart` (its field `Type` is `PartType` here); a nil
`ImageURL` pointer is `none`. -/
structure ChatMessagePart where
  PartType : ChatMessagePartType
  Text : String
  ImageURL : Option ChatMessageImageURL
  deriving DecidableEq

/-- The constant `openai.ChatMessageRoleUser`. -/
def ChatMessageRoleUser : String := "user"

/-- The type `openai.ChatCompletionMessage`, with the fields the code sets. -/
structure ChatCompletionMessage where
  Role : String
  Content : String
  MultiContent : List ChatMessagePart
  deriving DecidableEq

/-- The type `openai.ChatCompletionRequest`, with the fields the code sets. -/
structure ChatCompletionRequest where
  Model : String
  Messages : List ChatCompletionMessage
  deriving DecidableEq

/-- The receiver `OpenAILLM`, without its HTTP client. -/
structure OpenAILLM where
  Model : String
  PromptPrefix : String

/-- The request that `OpenAILLM.Generate` hands to `CreateChatCompletion`
(openai.go, lines 55-67). -/
def OpenAILLM.Generate (o : OpenAILLM) (prompt : String) : ChatCompletionRequest :=
  let fullPrompt := if o.PromptPrefix ≠ "" then o.PromptPrefix ++ "\n" ++ prompt else prompt
  { Model := o.Model,
    Messages := [{ Role := ChatMessageRoleUser, Content := fullPrompt, MultiContent := [] }] }

/-- One iteration of the loop that separates the files by type
(openai.go, lines 114-122); the state is `(textFiles, mediaFiles)`. -/
def partitionStep (env : Env) (acc : List File × List File) (f : File) :
    List File × List File :=
  let mt := env.normalizeMIME f.Name f.MIME
  if env.isImageOrVideoMIME mt && getOpenAIMimeType env.unicodeToLower mt != "" then
    (acc.1, acc.2 ++ [f])
  else if env.isTextMIME mt then
    (acc.1 ++ [f], acc.2)
  else acc

/-- The loop that separates the files by type: `(textFiles, mediaFiles)`. -/
def partitionFiles (env : Env) (files : List File) : List File × List File :=
  files.foldl (partitionStep env) ([], [])

/-- One iteration of the loop that adds the media files
(openai.go, lines 145-173). -/
def mediaStep (env : Env) (contentParts : List ChatMessagePart) (f : File) :
    List ChatMessagePart :=
  let mt := env.normalizeMIME f.Name f.MIME
  let openaiMime := getOpenAIMimeType env.unicodeToLower mt
  if openaiMime = "" then contentParts
  else
    let encoded := EncodeToString f.Data
    let dataURL := "data:" ++ openaiMime ++ ";base64," ++ encoded
    if HasPrefix openaiMime "image/" then
      contentParts ++ [{ PartType := .ImageURL, Text := "",
                         ImageURL := some { URL := dataURL, Detail := .Auto } }]
    else if HasPrefix openaiMime "video/" then
      contentParts ++ [{ PartType := .ImageURL, Text := "",
                         ImageURL := some { URL := dataURL, Detail := .unset } }]
    else contentParts

/-- The request that `OpenAILLM.GenerateWithFiles` hands to
`CreateChatCompletion` (openai.go, lines 104-181), directly or through
`Generate`. -/
def OpenAILLM.GenerateWithFiles (env : Env) (o : OpenAILLM) (prompt : String)
    (files : List File) : ChatCompletionRequest :=
  let fullPrompt := if o.PromptPrefix ≠ "" then o.PromptPrefix ++ "\n" ++ prompt else prompt
  let textFiles := (partitionFiles env files).1
  let mediaFiles := (partitionFiles env files).2
  if mediaFiles.length = 0 then
    let combined := env.combinePromptWithFiles fullPrompt textFiles
    o.Generate combined
  else
    let textPrompt :=
      if textFiles.length > 0 then env.combinePromptWithFiles fullPrompt textFiles
      else fullPrompt
    let contentParts : List ChatMessagePart :=
      [] ++ [{ PartType := .Text, Text := textPrompt, ImageURL := none }]
    let contentParts := mediaFiles.foldl (mediaStep env) contentParts
    { Model := o.Model,
      Messages := [{ Role := ChatMessageRoleUser, Content := "", MultiContent := contentParts }] }

/-! ### Vocabulary of the statements -/

/-- The prompt with the prefix and a newline in front when the prefix is
not empty. -/
def fullPromptOf (o : OpenAILLM) (prompt : String) : String :=
  if o.PromptPrefix ≠ "" then o.PromptPrefix ++ "\n" ++ prompt else prompt

/-- The normalized MIME type of a file. -/
def mimeOf (env : Env) (f : File) : String := env.normalizeMIME f.Name f.MIME

/-- A file classified image or video. -/
def isMediaClass (env : Env) (f : File) : Bool := env.isImageOrVideoMIME (mimeOf env f)

/-- A file classified text. -/
def isTextClass (env : Env) (f : File) : Bool := env.isTextMIME (mimeOf env f)

/-- A provider-accepted media file: classified image or video, with a MIME
type that `getOpenAIMimeType` maps to a non-empty string. -/
def isAccepted (env : Env) (f : File) : Bool :=
  isMediaClass env f && getOpenAIMimeType env.unicodeToLower (mimeOf env f) != ""

/-- Modelled from the spec: `classify` (section 4.1) gives every canonical
MIME type one class of `Text`, `Image`, `Video`, `Unsupported`. For the two
predicates of package `models`, which are not among the sources, this says
that no MIME type is classified both text and image or video. -/
def Env.singleClass (env : Env) : Prop :=
  ∀ mt, env.isTextMIME mt = true → env.isImageOrVideoMIME mt = false

/-- The data URL of a file: provider MIME type and base64 text. -/
def dataURLOf (env : Env) (f : File) : String :=
  "data:" ++ getOpenAIMimeType env.unicodeToLower (mimeOf env f) ++ ";base64," ++
    EncodeToString f.Data

/-- The media part of an accepted file: an image-URL part with the data
URL, with detail `auto` for an image and no detail for a video. -/
def mediaPartOf (env : Env) (f : File) : ChatMessagePart :=
  { PartType := .ImageURL, Text := "",
    ImageURL := some
      { URL := dataURLOf env f,
        Detail := if HasPrefix (getOpenAIMimeType env.unicodeToLower (mimeOf env f)) "image/"
                  then .Auto else .unset } }

/-- The multi-part content of the single message of a request. -/
def contentPartsOf (r : ChatCompletionRequest) : List ChatMessagePart :=
  (r.Messages.map (fun m => m.MultiContent)).flatten

/-- One instance of the helpers, used to run the embedding on concrete
inputs: the declared MIME type lowered and trimmed, `.txt` and `.png`
recognised by extension, text files inlined by name. -/
def sampleEnv : Env where
  normalizeMIME := fun name mime =>
    if mime ≠ "" then ToLower id (TrimSpace mime)
    else if name.data.reverse.take 4 = ".txt".data.reverse then "text/plain"
    else if name.data.reverse.take 4 = ".png".data.reverse then "image/png"
    else ""
  isImageOrVideoMIME := fun mt => HasPrefix mt "image/" || HasPrefix mt "video/"
  isTextMIME := fun mt => HasPrefix mt "text/"
  combinePromptWithFiles := fun base files =>
    files.foldl (fun acc f => acc ++ "\n--- " ++ f.Name ++ " ---") base
  unicodeToLower := id

/-! ## Go `float64` -/

/-- A Go `float64`: not-a-number, an infinity, or the finite value
`(-1)^neg * m * 2^e`. The values the operations below return have
`m < 2^53`, `-1074 ≤ e ≤ 971`, and `2^52 ≤ m` unless `e = -1074`. -/
inductive Float64 where
  | nan
  | inf (neg : Bool)
  | fin (neg : Bool) (m : Nat) (e : Int)
  deriving DecidableEq

namespace Float64

/-- Positive zero. -/
def zero : Float64 := fin false 0 (-1074)

/-- Negative zero. -/
def negZero : Float64 := fin true 0 (-1074)

/-- The floor of the binary logarithm, by halving at most `fuel` times. -/
def log2Fuel : Nat → Nat → Nat
  | 0, _ => 0
  | fuel + 1, n => if 2 ≤ n then log2Fuel fuel (n / 2) + 1 else 0

/-- The floor of the binary logarithm of `n` (0 for 0). -/
def ilog2 (n : Nat) : Nat := log2Fuel n n

/-- The quotient `num / den` rounded to the nearest integer, ties to even. -/
def roundHalfEven (num den : Nat) : Nat :=
  let q := num / den
  let r := num % den
  if den < 2 * r ∨ (2 * r = den ∧ q % 2 = 1) then q + 1 else q

/-- The floor of the binary logarithm of `n / d`, for `0 < n` and `0 < d`:
the difference of the two logarithms, or one less. -/
def floorLog2Rat (n d : Nat) : Int :=
  let l : Int := (ilog2 n : Int) - (ilog2 d : Int)
  let ge : Bool :=
    if 0 ≤ l then decide (d * 2 ^ l.toNat ≤ n) else decide (d ≤ n * 2 ^ (-l).toNat)
  if ge then l else l - 1

/-- The `float64` with sign `neg` and exponent `e` whose significand is
`n / d / 2^e` rounded to the nearest integer, ties to even; a significand
of `2^53` moves to the next exponent, and an exponent above 971 gives an
infinity. -/
def roundScaled (neg : Bool) (n d : Nat) (e : Int) : Float64 :=
  let num : Nat := if e < 0 then n * 2 ^ (-e).toNat else n
  let den : Nat := if e < 0 then d else d * 2 ^ e.toNat
  let m := roundHalfEven num den
  let m1 := if m = 2 ^ 53 then 2 ^ 52 else m
  let e1 := if m = 2 ^ 53 then e + 1 else e
  if 971 < e1 then inf neg else fin neg m1 e1

/-- The `float64` nearest to `(-1)^neg * n / d` (for `0 < d`), ties to even,
with overflow to infinity and gradual underflow: the exponent is the one
that gives a 53-bit significand, and not less than -1074. -/
def roundRat (neg : Bool) (n d : Nat) : Float64 :=
  if n = 0 then fin neg 0 (-1074)
  else roundScaled neg n d (max (floorLog2Rat n d - 52) (-1074))

/-- The conversion `float64(v)` of a Go `int`. -/
def ofInt (v : Int) : Float64 := roundRat (decide (v < 0)) v.natAbs 1

/-- Unary minus. -/
def neg : Float64 → Float64
  | nan => nan
  | inf s => inf (!s)
  | fin s m e => fin (!s) m e

/-- The sum `a + b`. -/
def add : Float64 → Float64 → Float64
  | nan, _ => nan
  | _, nan => nan
  | inf s, inf t => if s = t then inf s else nan
  | inf s, fin _ _ _ => inf s
  | fin _ _ _, inf t => inf t
  | fin s m e, fin t k g =>
    let c : Int := min e g
    let x : Int := (if s then -1 else 1) * ((m * 2 ^ (e - c).toNat : Nat) : Int)
    let y : Int := (if t then -1 else 1) * ((k * 2 ^ (g - c).toNat : Nat) : Int)
    let z : Int := x + y
    if z = 0 then fin (s && t) 0 (-1074)
    else if c < 0 then roundRat (decide (z < 0)) z.natAbs (2 ^ (-c).toNat)
    else roundRat (decide (z < 0)) (z.natAbs * 2 ^ c.toNat) 1

/-- The difference `a - b`. -/
def sub (a b : Float64) : Float64 := add a (neg b)

/-- The product `a * b`. -/
def mul : Float64 → Float64 → Float64
  | nan, _ => nan
  | _, nan => nan
  | inf s, inf t => inf (xor s t)
  | inf s, fin t k _ => if k = 0 then nan else inf (xor s t)
  | fin s m _, inf t => if m = 0 then nan else inf (xor s t)
  | fin s m e, fin t k g =>
    let c : Int := e + g
    if c < 0 then roundRat (xor s t) (m * k) (2 ^ (-c).toNat)
    else roundRat (xor s t) (m * k * 2 ^ c.toNat) 1

/-- The quotient `a / b`. -/
def div : Float64 → Float64 → Float64
  | nan, _ => nan
  | _, nan => nan
  | inf _, inf _ => nan
  | inf s, fin t _ _ => inf (xor s t)
  | fin s _ _, inf t => fin (xor s t) 0 (-1074)
  | fin s m e, fin t k g =>
    if k = 0 then (if m = 0 then nan else inf (xor s t))
    else
      let c : Int := e - g
      if c < 0 then roundRat (xor s t) m (k * 2 ^ (-c).toNat)
      else roundRat (xor s t) (m * 2 ^ c.toNat) k

/-- The comparison `a == b`: a NaN equals nothing, the two zeros are equal. -/
def eq : Float64 → Float64 → Bool
  | nan, _ => false
  | _, nan => false
  | inf s, inf t => s == t
  | inf _, fin _ _ _ => false
  | fin _ _ _, inf _ => false
  | fin s m e, fin t k g =>
    (m == 0 && k == 0) ||
      (s == t && m * 2 ^ (e - min e g).toNat == k * 2 ^ (g - min e g).toNat)

/-- The verb `%.2f` of `fmt.Sprintf`: two decimals, the exact value
rounded to the nearest, ties to even. -/
def fmt2 : Float64 → String
  | nan => "NaN"
  | inf false => "+Inf"
  | inf true => "-Inf"
  | fin s m e =>
    let c : Nat :=
      if e < 0 then roundHalfEven (m * 100) (2 ^ (-e).toNat)
      else m * 100 * 2 ^ e.toNat
    (if s then "-" else "") ++ toString (c / 100) ++ "." ++
      (if c % 100 < 10 then "0" else "") ++ toString (c % 100)

/-- A well-formed `float64`: a 53-bit significand, an exponent in range,
and the leading bit set unless the exponent is the least one. -/
def wf : Float64 → Bool
  | nan => true
  | inf _ => true
  | fin _ m e => decide (m < 2 ^ 53) && decide (-1074 ≤ e) && decide (e ≤ 971) &&
      (decide (2 ^ 52 ≤ m) || decide (e = -1074))

/-- The `float64` is finite and its value is the integer `x`. -/
def represents : Float64 → Int → Bool
  | fin s m e, x =>
    decide ((if s then -1 else 1) * (m : Int) * 2 ^ e.toNat = x * 2 ^ (-e).toNat)
  | _, _ => false

/-- The `float64` is a well-formed value equal to the integer `x`, and is not
negative zero. -/
def isInt (f : Float64) (x : Int) : Bool :=
  f.wf && f.represents x && decide (f ≠ negZero)

end Float64

/-! ## Go standard library: `strconv.ParseFloat` -/

/-- The value of a hexadecimal digit, as `readFloat` reads it. -/
def hexDigit (c : Char) : Option Nat :=
  if '0' ≤ c ∧ c ≤ '9' then some (c.toNat - 48)
  else if 'a' ≤ c ∧ c ≤ 'f' then some (c.toNat - 87)
  else if 'A' ≤ c ∧ c ≤ 'F' then some (c.toNat - 55)
  else none

/-- The loop of `underscoreOK` over the number proper; `saw` is the last
character class seen: `0` for a digit or base prefix, `_` for an underscore,
`!` for anything else, `^` at the start. -/
def underscoreLoop (hex : Bool) : Char → List Char → Bool
  | saw, [] => saw != '_'
  | saw, c :: r =>
    if ('0' ≤ c ∧ c ≤ '9') ∨ (hex = true ∧ (('a' ≤ c ∧ c ≤ 'f') ∨ ('A' ≤ c ∧ c ≤ 'F'))) then
      underscoreLoop hex '0' r
    else if c = '_' then
      if saw != '0' then false else underscoreLoop hex '_' r
    else if saw = '_' then false
    else underscoreLoop hex '!' r

/-- Go `strconv.underscoreOK`: underscores only between digits, or between a
base prefix and a digit. -/
def underscoreOK (s : List Char) : Bool :=
  let s := match s with
    | '-' :: r => r
    | '+' :: r => r
    | _ => s
  match s with
  | '0' :: c :: r =>
    if c = 'b' ∨ c = 'B' ∨ c = 'o' ∨ c = 'O' ∨ c = 'x' ∨ c = 'X' then
      underscoreLoop (c = 'x' ∨ c = 'X') '0' r
    else underscoreLoop false '^' s
  | _ => underscoreLoop false '^' s

/-- The state of the mantissa loop of `readFloat`: the digits read so far as
a number in the base, how many of them follow the point, whether a point and
whether a digit was seen. -/
structure Mantissa where
  value : Nat
  fracDigits : Nat
  sawdot : Bool
  sawdigits : Bool

/-- The mantissa loop of `readFloat`: underscores are skipped, one point is
taken, digits of the base are accumulated; the loop stops at the first other
character and returns the rest of the text. -/
def readMantissa (hex : Bool) : Mantissa → List Char → Mantissa × List Char
  | st, [] => (st, [])
  | st, c :: r =>
    if c = '_' then readMantissa hex st r
    else if c = '.' then
      if st.sawdot then (st, c :: r)
      else readMantissa hex { st with sawdot := true } r
    else
      match (if hex then hexDigit c else if '0' ≤ c ∧ c ≤ '9' then hexDigit c else none) with
      | some v =>
        readMantissa hex
          { st with
            value := st.value * (if hex then 16 else 10) + v,
            fracDigits := if st.sawdot then st.fracDigits + 1 else st.fracDigits,
            sawdigits := true } r
      | none => (st, c :: r)

/-- The exponent digits of `readFloat`, underscores skipped; the value stops
growing once it has reached 10000. `none` when another character follows. -/
def readExponent : Nat → List Char → Option Nat
  | e, [] => some e
  | e, c :: r =>
    if c = '_' then readExponent e r
    else if '0' ≤ c ∧ c ≤ '9' then
      readExponent (if e < 10000 then e * 10 + (c.toNat - 48) else e) r
    else none

/-- The exact value of a well-formed decimal or hexadecimal floating-point
text, as `readFloat` reads it and `ParseFloat` accepts it (the whole text is
consumed): the sign, and the magnitude as a fraction `n / d`. `none` for a
text that is not well-formed. -/
def numberValue (text : String) : Option (Bool × Nat × Nat) :=
  let s := text.data
  let neg : Bool := match s with
    | '-' :: _ => true
    | _ => false
  let body : List Char := match s with
    | '-' :: r => r
    | '+' :: r => r
    | _ => s
  let hex : Bool := match body with
    | '0' :: x :: _ :: _ => x = 'x' ∨ x = 'X'
    | _ => false
  let digits : List Char := if hex then body.drop 2 else body
  let (m, rest) := readMantissa hex ⟨0, 0, false, false⟩ digits
  if !m.sawdigits then none
  else
    let exponent : Option Int :=
      match rest with
      | [] => if hex then none else some 0
      | c :: r =>
        if (hex = false ∧ (c = 'e' ∨ c = 'E')) ∨ (hex = true ∧ (c = 'p' ∨ c = 'P')) then
          let esign : Int := match r with
            | '-' :: _ => -1
            | _ => 1
          let ds : List Char := match r with
            | '-' :: q => q
            | '+' :: q => q
            | _ => r
          match ds with
          | d :: _ =>
            if '0' ≤ d ∧ d ≤ '9' then (readExponent 0 ds).map (fun e => esign * (e : Int))
            else none
          | [] => none
        else none
    match exponent with
    | none => none
    | some e =>
      if s.contains '_' && !underscoreOK s then none
      else
        let k : Int := if hex then e - 4 * (m.fracDigits : Int) else e - (m.fracDigits : Int)
        let b : Nat := if hex then 2 else 10
        if 0 ≤ k then some (neg, m.value * b ^ k.toNat, 1)
        else some (neg, m.value, b ^ (-k).toNat)

/-- Go `strconv.commonPrefixLenIgnoreCase`, for a match of the whole of `s`
with the lower-case `pattern`: an upper-case letter of `s` also matches. -/
def foldEq : List Char → List Char → Bool
  | [], [] => true
  | c :: r, p :: q => (c == p || c.toNat + 32 == p.toNat) && foldEq r q
  | _, _ => false

/-- The text is `inf` or `infinity`, in any case of letters. -/
def isInfText (s : List Char) : Bool :=
  foldEq s ['i', 'n', 'f'] || foldEq s ['i', 'n', 'f', 'i', 'n', 'i', 't', 'y']

/-- Go `strconv.special`, for a text it consumes whole: an optionally signed
`inf` or `infinity`, or an unsigned `nan`, in any case of letters. -/
def specialValue (text : String) : Option Float64 :=
  match text.data with
  | '+' :: r => if isInfText r then some (Float64.inf false) else none
  | '-' :: r => if isInfText r then some (Float64.inf true) else none
  | s =>
    if isInfText s then some (Float64.inf false)
    else if foldEq s ['n', 'a', 'n'] then some Float64.nan
    else none

/-- Go `strconv.ParseFloat(s, 64)`, which is `json.Number.Float64`: the
value and whether the error is nil. A special value or the nearest `float64`
of a well-formed text, ties to even; an infinity with a range error on
overflow; 0 with a syntax error for every other text. -/
def ParseFloat (text : String) : Float64 × Bool :=
  match specialValue text with
  | some f => (f, true)
  | none =>
    match numberValue text with
    | none => (Float64.zero, false)
    | some (neg, n, d) =>
      let f := Float64.roundRat neg n d
      (f, match f with
          | .inf _ => false
          | _ => true)

/-! ## `cmd/example/interactive_chat/main.go`: the calculator tool -/

/-- A value of Go type `any` in `ToolRequest.Arguments`: the nil interface
(what indexing the map gives for an absent key), a `float64`, an `int`, a
`json.Number` (the text of a number), a `string`, a `bool`, a nested
`map[string]any`, a `[]any`, or a value of another dynamic type. -/
inductive Value where
  | nil
  | float64 (v : Float64)
  | int (v : Int)
  | jsonNumber (text : String)
  | string (s : String)
  | bool (b : Bool)
  | object (fields : List (String × Value))
  | array (items : List Value)
  | other (typeName : String)

/-- The map `req.Arguments`. -/
abbrev Arguments := List (String × Value)

/-- The index expression `args[key]`: the nil interface for an absent key. -/
def Arguments.get (args : Arguments) (key : String) : Value :=
  match args.lookup key with
  | some v => v
  | none => .nil

/-- The type `agent.ToolResponse`, with the fields the tool sets. -/
structure ToolResponse where
  Content : String
  Error : String
  deriving DecidableEq

/-- The type switch on an operand (main.go, lines 415-424 and 426-435):
the operand as a `float64`, or `none` in the `default` case. The parameter
`parseFloat` is `json.Number.Float64`, as the pair of the `float64` it
returns and whether its error is nil; the switch drops the error. -/
def operandOf (parseFloat : String → Float64 × Bool) : Value → Option Float64
  | .float64 v => some v
  | .int v => some (Float64.ofInt v)
  | .jsonNumber v => some (parseFloat v).1
  | _ => none

/-- The method `CalculatorTool.Invoke` (main.go, lines 403-466): the
response and the error it returns (`none` is the nil error). -/
def CalculatorTool.Invoke (parseFloat : String → Float64 × Bool) (args : Arguments) :
    ToolResponse × Option String :=
  match args.get "operation" with
  | .string operation =>
    match operandOf parseFloat (args.get "a") with
    | none => ({ Content := "", Error := "参数 a 必须是数字" }, none)
    | some a =>
      match operandOf parseFloat (args.get "b") with
      | none => ({ Content := "", Error := "参数 b 必须是数字" }, none)
      | some b =>
        let output (result : Float64) (opStr : String) : ToolResponse × Option String :=
          ({ Content := Float64.fmt2 a ++ " " ++ opStr ++ " " ++ Float64.fmt2 b ++ " = " ++
               Float64.fmt2 result,
             Error := "" }, none)
        if operation = "add" then output (Float64.add a b) "+"
        else if operation = "subtract" then output (Float64.sub a b) "-"
        else if operation = "multiply" then output (Float64.mul a b) "×"
        else if operation = "divide" then
          if Float64.eq b Float64.zero then
            ({ Content := "", Error := "除数不能为零" }, none)
          else output (Float64.div a b) "÷"
        else ({ Content := "", Error := "不支持的运算类型: " ++ operation }, none)
  | _ => ({ Content := "", Error := "缺少 operation 参数" }, none)

/-- The operand types the type switch converts: `float64`, `int` and
`json.Number`. -/
def Value.isNumberType : Value → Bool
  | .float64 _ => true
  | .int _ => true
  | .jsonNumber _ => true
  | _ => false

/-- The part of `Invoke` after the operands are decoded (main.go, lines
437-466), as a function of the operation name and the two operands. -/
def calculate (operation : String) (a b : Float64) : ToolResponse × Option String :=
  if operation = "add" then
    ({ Content := Float64.fmt2 a ++ " " ++ "+" ++ " " ++ Float64.fmt2 b ++ " = " ++
         Float64.fmt2 (Float64.add a b), Error := "" }, none)
  else if operation = "subtract" then
    ({ Content := Float64.fmt2 a ++ " " ++ "-" ++ " " ++ Float64.fmt2 b ++ " = " ++
         Float64.fmt2 (Float64.sub a b), Error := "" }, none)
  else if operation = "multiply" then
    ({ Content := Float64.fmt2 a ++ " " ++ "×" ++ " " ++ Float64.fmt2 b ++ " = " ++
         Float64.fmt2 (Float64.mul a b), Error := "" }, none)
  else if operation = "divide" then
    if Float64.eq b Float64.zero then ({ Content := "", Error := "除数不能为零" }, none)
    else
      ({ Content := Float64.fmt2 a ++ " " ++ "÷" ++ " " ++ Float64.fmt2 b ++ " = " ++
           Float64.fmt2 (Float64.div a b), Error := "" }, none)
  else ({ Content := "", Error := "不支持的运算类型: " ++ operation }, none)

/-- The text is a well-formed number whose exact value is the integer `x`
(a `json.Number` text denoting `x`). -/
def denotes (text : String) (x : Int) : Bool :=
  match numberValue text with
  | some (neg, n, d) =>
    decide (0 < d) && decide ((if neg then -(n : Int) else (n : Int)) = x * (d : Int))
  | none => false

/-- The text is a well-formed number of value zero written with a minus
sign, such as `-0` or `-0.0`. -/
def isMinusZero (text : String) : Bool :=
  match numberValue text with
  | some (neg, n, _) => neg && n == 0
  | none => false

/-- Modelled from the documentation of `strconv.ParseFloat`, which
`json.Number.Float64` calls: for a well-formed text the function returns the
nearest `float64` of the exact value, ties to even, with a nil error unless
that is an infinity. -/
def ReadsNumbers (parseFloat : String → Float64 × Bool) : Prop :=
  ∀ text neg n d, numberValue text = some (neg, n, d) →
    parseFloat text =
      (Float64.roundRat neg n d,
       match Float64.roundRat neg n d with
       | .inf _ => false
       | _ => true)

/-! ## Lemmas on `getOpenAIMimeType` -/

theorem hasPrefix_video_not_image (m : String) (h : HasPrefix m "video/" = true) :
    HasPrefix m "image/" = false := by
  unfold HasPrefix at *
  have e1 : "video/".data = ['v', 'i', 'd', 'e', 'o', '/'] := rfl
  have e2 : "image/".data = ['i', 'm', 'a', 'g', 'e', '/'] := rfl
  rw [e1] at h
  rw [e2]
  cases hm : m.data with
  | nil => rw [hm] at h; simp [List.isPrefixOf] at h
  | cons c cs =>
    rw [hm] at h
    simp only [List.isPrefixOf, Bool.and_eq_true, beq_iff_eq] at h
    rw [← h.1]
    simp [List.isPrefixOf]

/-- The body of `getOpenAIMimeType` in terms of the lowered, trimmed
argument. -/
theorem getOpenAIMimeType_eq (uni : Char → Char) (mt : String) :
    getOpenAIMimeType uni mt =
      if HasPrefix (canonMime uni mt) "image/" then
        if canonMime uni mt = "image/jpeg" ∨ canonMime uni mt = "image/jpg" then "image/jpeg"
        else if canonMime uni mt = "image/png" then "image/png"
        else if canonMime uni mt = "image/gif" then "image/gif"
        else if canonMime uni mt = "image/webp" then "image/webp"
        else ""
      else if HasPrefix (canonMime uni mt) "video/" then canonMime uni mt
      else "" := rfl

/-- A non-empty provider MIME type is an image type or a video type. -/
theorem getOpenAIMimeType_prefix (uni : Char → Char) (mt : String)
    (h : getOpenAIMimeType uni mt ≠ "") :
    HasPrefix (getOpenAIMimeType uni mt) "image/" = true ∨
      HasPrefix (getOpenAIMimeType uni mt) "video/" = true := by
  rw [getOpenAIMimeType_eq] at h ⊢
  generalize canonMime uni mt = m at h ⊢
  by_cases h1 : HasPrefix m "image/" = true
  · left
    simp only [h1, if_true] at h ⊢
    split_ifs <;> first | decide | simp_all
  · by_cases h2 : HasPrefix m "video/" = true
    · right
      simp [h1, h2]
    · simp [h1, h2] at h

/-- The type `image/jpg` is sent as `image/jpeg`. -/
theorem getOpenAIMimeType_jpg (uni : Char → Char) (mt : String)
    (h : canonMime uni mt = "image/jpg") : getOpenAIMimeType uni mt = "image/jpeg" := by
  rw [getOpenAIMimeType_eq, h]
  decide

/-- C5. With `m` the lowered, trimmed argument, `getOpenAIMimeType` returns
`image/jpeg` when `m` is `image/jpeg` or `image/jpg`; `m` when `m` is
`image/png`, `image/gif` or `image/webp`; the empty string for every other
`m` that starts with `image/`; `m` when `m` starts with `video/`; the empty
string for every other `m`; and a non-empty result starts with `image/` or
`video/`. -/
theorem getOpenAIMimeType_spec (uni : Char → Char) (mt : String) :
    ((canonMime uni mt = "image/jpeg" ∨ canonMime uni mt = "image/jpg") →
      getOpenAIMimeType uni mt = "image/jpeg") ∧
    ((canonMime uni mt = "image/png" ∨ canonMime uni mt = "image/gif" ∨
        canonMime uni mt = "image/webp") →
      getOpenAIMimeType uni mt = canonMime uni mt) ∧
    ((HasPrefix (canonMime uni mt) "image/" = true ∧ canonMime uni mt ≠ "image/jpeg" ∧
        canonMime uni mt ≠ "image/jpg" ∧ canonMime uni mt ≠ "image/png" ∧
        canonMime uni mt ≠ "image/gif" ∧ canonMime uni mt ≠ "image/webp") →
      getOpenAIMimeType uni mt = "") ∧
    (HasPrefix (canonMime uni mt) "video/" = true →
      getOpenAIMimeType uni mt = canonMime uni mt) ∧
    ((HasPrefix (canonMime uni mt) "image/" = false ∧
        HasPrefix (canonMime uni mt) "video/" = false) →
      getOpenAIMimeType uni mt = "") ∧
    (getOpenAIMimeType uni mt ≠ "" →
      (HasPrefix (getOpenAIMimeType uni mt) "image/" = true ∨
        HasPrefix (getOpenAIMimeType uni mt) "video/" = true)) := by
  refine ⟨?_, ?_, ?_, ?_, ?_, getOpenAIMimeType_prefix uni mt⟩ <;>
    rw [getOpenAIMimeType_eq] <;> generalize canonMime uni mt = m
  · rintro (h | h) <;> subst h <;> decide
  · rintro (h | h | h) <;> subst h <;> decide
  · rintro ⟨h1, h2, h3, h4, h5, h6⟩
    simp [h1, h2, h3, h4, h5, h6]
  · intro h
    have hi : HasPrefix m "image/" = false := hasPrefix_video_not_image m h
    simp [hi, h]
  · rintro ⟨h1, h2⟩
    simp [h1, h2]

/-! ## Lemmas on the two loops of `GenerateWithFiles` -/

theorem isAccepted_iff (env : Env) (f : File) :
    isAccepted env f = true ↔
      env.isImageOrVideoMIME (env.normalizeMIME f.Name f.MIME) = true ∧
        getOpenAIMimeType env.unicodeToLower (env.normalizeMIME f.Name f.MIME) ≠ "" := by
  simp [isAccepted, isMediaClass, mimeOf]

theorem partitionStep_eq (env : Env) (acc : List File × List File) (f : File) :
    partitionStep env acc f =
      (acc.1 ++ [f].filter (fun f => !isAccepted env f && isTextClass env f),
       acc.2 ++ [f].filter (isAccepted env)) := by
  unfold partitionStep
  by_cases h1 : isAccepted env f = true
  · have h1' := h1
    simp only [isAccepted, isMediaClass, mimeOf] at h1'
    simp [h1, h1']
  · have h1' := h1
    simp only [isAccepted, isMediaClass, mimeOf] at h1'
    by_cases h2 : isTextClass env f = true
    · have h2' := h2
      simp only [isTextClass, mimeOf] at h2'
      simp [h1, h1', h2, h2']
    · have h2' := h2
      simp only [isTextClass, mimeOf] at h2'
      simp [h1, h1', h2, h2']

theorem foldl_partitionStep (env : Env) (files : List File) (acc : List File × List File) :
    files.foldl (partitionStep env) acc =
      (acc.1 ++ files.filter (fun f => !isAccepted env f && isTextClass env f),
       acc.2 ++ files.filter (isAccepted env)) := by
  induction files generalizing acc with
  | nil => simp
  | cons f fs ih =>
    rw [List.foldl_cons, ih, partitionStep_eq]
    have e : f :: fs = [f] ++ fs := rfl
    rw [e, List.filter_append, List.filter_append]
    simp only [List.append_assoc]

/-- The lists the first loop builds: the accepted media files, and the
text-classified files among the others, both in input order. -/
theorem partitionFiles_eq (env : Env) (files : List File) :
    partitionFiles env files =
      (files.filter (fun f => !isAccepted env f && isTextClass env f),
       files.filter (isAccepted env)) := by
  unfold partitionFiles
  rw [foldl_partitionStep]
  simp

theorem mediaStep_accepted (env : Env) (parts : List ChatMessagePart) (f : File)
    (h : isAccepted env f = true) :
    mediaStep env parts f = parts ++ [mediaPartOf env f] := by
  have hne : getOpenAIMimeType env.unicodeToLower (env.normalizeMIME f.Name f.MIME) ≠ "" :=
    ((isAccepted_iff env f).1 h).2
  unfold mediaStep mediaPartOf dataURLOf mimeOf
  rcases getOpenAIMimeType_prefix _ _ hne with hp | hp
  · simp [hne, hp]
  · by_cases hi : HasPrefix (getOpenAIMimeType env.unicodeToLower
        (env.normalizeMIME f.Name f.MIME)) "image/" = true
    · simp [hne, hi]
    · simp [hne, hi, hp]

theorem foldl_mediaStep (env : Env) (ms : List File) (parts : List ChatMessagePart)
    (h : ∀ f ∈ ms, isAccepted env f = true) :
    ms.foldl (mediaStep env) parts = parts ++ ms.map (mediaPartOf env) := by
  induction ms generalizing parts with
  | nil => simp
  | cons f fs ih =>
    rw [List.foldl_cons, mediaStep_accepted env parts f (h f (List.mem_cons_self f fs)),
      ih _ (fun g hg => h g (List.mem_cons_of_mem f hg))]
    simp

/-- The request of `GenerateWithFiles` when no file is an accepted media
file: the request of `Generate` for the combined prompt. -/
theorem GenerateWithFiles_noMedia (env : Env) (o : OpenAILLM) (prompt : String)
    (files : List File) (h : files.filter (isAccepted env) = []) :
    o.GenerateWithFiles env prompt files =
      o.Generate (env.combinePromptWithFiles (fullPromptOf o prompt)
        (files.filter (fun f => !isAccepted env f && isTextClass env f))) := by
  unfold OpenAILLM.GenerateWithFiles
  rw [partitionFiles_eq]
  simp [h, fullPromptOf]

/-- The request of `GenerateWithFiles` when some file is an accepted media
file: one message, whose parts are the text part and one media part per
accepted file. -/
theorem GenerateWithFiles_media (env : Env) (o : OpenAILLM) (prompt : String)
    (files : List File) (h : files.filter (isAccepted env) ≠ []) :
    o.GenerateWithFiles env prompt files =
      { Model := o.Model,
        Messages :=
          [{ Role := ChatMessageRoleUser, Content := "",
             MultiContent :=
              { PartType := .Text,
                Text :=
                  if (files.filter (fun f => !isAccepted env f && isTextClass env f)).length > 0
                  then env.combinePromptWithFiles (fullPromptOf o prompt)
                    (files.filter (fun f => !isAccepted env f && isTextClass env f))
                  else fullPromptOf o prompt,
                ImageURL := none } ::
              (files.filter (isAccepted env)).map (mediaPartOf env) }] } := by
  unfold OpenAILLM.GenerateWithFiles
  rw [partitionFiles_eq]
  have hlen : ¬ (files.filter (isAccepted env)).length = 0 := by
    simpa [List.length_eq_zero] using h
  simp only [hlen, if_false]
  rw [foldl_mediaStep env _ _ (fun f hf => (List.mem_filter.1 hf).2)]
  simp [fullPromptOf]

/-! ## Lemmas on base64 -/

theorem b64Index_b64Char : ∀ i : Fin 64, b64Index (b64Char i.val) = some i.val := by decide

theorem b64Char_ne_pad : ∀ i : Fin 64, b64Char i.val ≠ '=' := by decide

theorem b64Char_plain : ∀ i : Fin 64,
    b64Char i.val ≠ '\r' ∧ b64Char i.val ≠ '\n' ∧ b64Char i.val ≠ ',' := by decide

theorem b64Index_char {i : Nat} (h : i < 64) : b64Index (b64Char i) = some i :=
  b64Index_b64Char ⟨i, h⟩

theorem b64Char_ne {i : Nat} (h : i < 64) : b64Char i ≠ '=' :=
  b64Char_ne_pad ⟨i, h⟩

theorem b64Char_ok {i : Nat} (h : i < 64) :
    b64Char i ≠ '\r' ∧ b64Char i ≠ '\n' ∧ b64Char i ≠ ',' :=
  b64Char_plain ⟨i, h⟩

/-- Decoding the characters of an encoding gives the bytes back. -/
theorem base64Decode_encode (src : List Byte) :
    base64Decode (base64Encode src) = some src := by
  induction src using base64Encode.induct with
  | case1 => rfl
  | case2 a =>
    have ha := a.isLt
    have h0 : a.val * 65536 / 262144 < 64 := by omega
    have h1 : a.val * 65536 / 4096 % 64 < 64 := by omega
    simp only [base64Encode, base64Decode, b64Index_char h0, b64Index_char h1]
    simp only [if_true, and_self]
    congr 1
    congr 1
    apply Fin.ext
    simp only [byteOf]
    omega
  | case3 a b =>
    have ha := a.isLt
    have hb := b.isLt
    have h0 : (a.val * 65536 + b.val * 256) / 262144 < 64 := by omega
    have h1 : (a.val * 65536 + b.val * 256) / 4096 % 64 < 64 := by omega
    have h2 : (a.val * 65536 + b.val * 256) / 64 % 64 < 64 := by omega
    simp only [base64Encode, base64Decode, b64Index_char h0, b64Index_char h1,
      b64Index_char h2, b64Char_ne h2, if_false, if_true]
    congr 1
    congr 1
    · apply Fin.ext
      simp only [byteOf]
      omega
    · congr 1
      apply Fin.ext
      simp only [byteOf]
      omega
  | case4 a b c rest ih =>
    have ha := a.isLt
    have hb := b.isLt
    have hc := c.isLt
    have h0 : (a.val * 65536 + b.val * 256 + c.val) / 262144 < 64 := by omega
    have h1 : (a.val * 65536 + b.val * 256 + c.val) / 4096 % 64 < 64 := by omega
    have h2 : (a.val * 65536 + b.val * 256 + c.val) / 64 % 64 < 64 := by omega
    have h3 : (a.val * 65536 + b.val * 256 + c.val) % 64 < 64 := by omega
    simp only [base64Encode, base64Decode, b64Index_char h0, b64Index_char h1,
      b64Index_char h2, b64Index_char h3, b64Char_ne h2, b64Char_ne h3, if_false, ih,
      Option.map_some']
    congr 1
    congr 1
    · apply Fin.ext
      simp only [byteOf]
      omega
    · congr 1
      · apply Fin.ext
        simp only [byteOf]
        omega
      · congr 1
        apply Fin.ext
        simp only [byteOf]
        omega

/-- An encoding has no carriage return, no line feed and no comma. -/
theorem base64Encode_plain (src : List Byte) :
    ∀ c ∈ base64Encode src, c ≠ '\r' ∧ c ≠ '\n' ∧ c ≠ ',' := by
  induction src using base64Encode.induct with
  | case1 => simp [base64Encode]
  | case2 a =>
    have ha := a.isLt
    have h0 : a.val * 65536 / 262144 < 64 := by omega
    have h1 : a.val * 65536 / 4096 % 64 < 64 := by omega
    intro c hc
    simp only [base64Encode, List.mem_cons, List.mem_singleton, List.not_mem_nil,
      or_false] at hc
    rcases hc with rfl | rfl | rfl | rfl
    · exact b64Char_ok h0
    · exact b64Char_ok h1
    · decide
    · decide
  | case3 a b =>
    have ha := a.isLt
    have hb := b.isLt
    have h0 : (a.val * 65536 + b.val * 256) / 262144 < 64 := by omega
    have h1 : (a.val * 65536 + b.val * 256) / 4096 % 64 < 64 := by omega
    have h2 : (a.val * 65536 + b.val * 256) / 64 % 64 < 64 := by omega
    intro c hc
    simp only [base64Encode, List.mem_cons, List.mem_singleton, List.not_mem_nil,
      or_false] at hc
    rcases hc with rfl | rfl | rfl | rfl
    · exact b64Char_ok h0
    · exact b64Char_ok h1
    · exact b64Char_ok h2
    · decide
  | case4 a b c rest ih =>
    have ha := a.isLt
    have hb := b.isLt
    have hc := c.isLt
    have h0 : (a.val * 65536 + b.val * 256 + c.val) / 262144 < 64 := by omega
    have h1 : (a.val * 65536 + b.val * 256 + c.val) / 4096 % 64 < 64 := by omega
    have h2 : (a.val * 65536 + b.val * 256 + c.val) / 64 % 64 < 64 := by omega
    have h3 : (a.val * 65536 + b.val * 256 + c.val) % 64 < 64 := by omega
    intro x hx
    simp only [base64Encode, List.mem_cons] at hx
    rcases hx with rfl | rfl | rfl | rfl | hx
    · exact b64Char_ok h0
    · exact b64Char_ok h1
    · exact b64Char_ok h2
    · exact b64Char_ok h3
    · exact ih x hx

/-- The round trip `DecodeString (EncodeToString src) = src`. -/
theorem DecodeString_EncodeToString (src : List Byte) :
    DecodeString (EncodeToString src) = some src := by
  unfold DecodeString EncodeToString
  have hf : (base64Encode src).filter (fun c => decide (c ≠ '\r' ∧ c ≠ '\n')) =
      base64Encode src := by
    rw [List.filter_eq_self]
    intro c hc
    have := base64Encode_plain src c hc
    simp [this.1, this.2.1]
  simp only [hf]
  exact base64Decode_encode src

theorem takeWhile_append_stop {α : Type} (p : α → Bool) (l r : List α) (a : α)
    (hl : ∀ x ∈ l, p x = true) (ha : p a = false) :
    (l ++ a :: r).takeWhile p = l := by
  induction l with
  | nil => simp [List.takeWhile, ha]
  | cons x xs ih =>
    have hx : p x = true := hl x (List.mem_cons_self x xs)
    simp only [List.cons_append, List.takeWhile_cons, hx, if_true]
    rw [ih (fun y hy => hl y (List.mem_cons_of_mem x hy))]

/-- The text after the last comma of a data URL is its base64 text. -/
theorem textAfterLastComma_dataURL (mime : String) (src : List Byte) :
    textAfterLastComma ("data:" ++ mime ++ ";base64," ++ EncodeToString src) =
      EncodeToString src := by
  unfold textAfterLastComma EncodeToString
  have e : ("data:" ++ mime ++ ";base64," ++ String.mk (base64Encode src)).data =
      ("data:".data ++ mime.data ++ ";base64".data) ++ ',' :: base64Encode src := by
    simp only [String.data_append]
    simp
  rw [e, List.reverse_append, List.reverse_cons, List.append_assoc, List.singleton_append,
    takeWhile_append_stop]
  · simp
  · intro x hx
    have := base64Encode_plain src x (List.mem_reverse.1 hx)
    simp [this.2.2]
  · simp

/-! ## The claims on `openai.go` -/

theorem append_ne_self (p s : String) (hp : p ≠ "") : p ++ s ≠ s := by
  intro h
  have hl := congrArg String.length h
  rw [String.length_append] at hl
  have : p.length ≠ 0 := by
    intro h0
    apply hp
    apply String.ext
    exact List.length_eq_zero.1 h0
  omega

/-- Without a media-classified file, `GenerateWithFiles` sends the request
of `Generate` for `combinePromptWithFiles(fullPrompt, textFiles)`; `Generate`
puts the prefix in front of that text once more. -/
theorem GenerateWithFiles_textOnly (env : Env) (o : OpenAILLM) (prompt : String)
    (files : List File) (h : ∀ f ∈ files, isMediaClass env f = false) :
    o.GenerateWithFiles env prompt files =
      { Model := o.Model,
        Messages :=
          [{ Role := ChatMessageRoleUser,
             Content :=
               if o.PromptPrefix ≠ "" then
                 o.PromptPrefix ++ "\n" ++
                   env.combinePromptWithFiles (fullPromptOf o prompt)
                     (files.filter (isTextClass env))
               else
                 env.combinePromptWithFiles (fullPromptOf o prompt)
                   (files.filter (isTextClass env)),
             MultiContent := [] }] } := by
  have hacc : ∀ f ∈ files, isAccepted env f = false := by
    intro f hf
    simp [isAccepted, h f hf]
  have h1 : files.filter (isAccepted env) = [] := by
    rw [List.filter_eq_nil_iff]
    intro f hf
    simp [hacc f hf]
  have h2 : files.filter (fun f => !isAccepted env f && isTextClass env f) =
      files.filter (isTextClass env) := by
    apply List.filter_congr
    intro f hf
    simp [hacc f hf]
  rw [GenerateWithFiles_noMedia env o prompt files h1, h2]
  rfl

/-- With an empty prefix and no media-classified file, the single message
content is `combinePromptWithFiles(prompt, textFiles)`. -/
theorem GenerateWithFiles_textOnly_noPrefix (env : Env) (model prompt : String)
    (files : List File) (h : ∀ f ∈ files, isMediaClass env f = false) :
    OpenAILLM.GenerateWithFiles env { Model := model, PromptPrefix := "" } prompt files =
      { Model := model,
        Messages :=
          [{ Role := ChatMessageRoleUser,
             Content := env.combinePromptWithFiles prompt (files.filter (isTextClass env)),
             MultiContent := [] }] } := by
  rw [GenerateWithFiles_textOnly env _ prompt files h]
  simp [fullPromptOf]

/-- With an empty prefix, files that are all unsupported, and a
`combinePromptWithFiles` that returns the base prompt for no text file,
`GenerateWithFiles` sends the request of `Generate` for the prompt alone. -/
theorem GenerateWithFiles_unsupported_noPrefix (env : Env) (model prompt : String)
    (files : List File)
    (hcomb : ∀ base, env.combinePromptWithFiles base [] = base)
    (htext : ∀ f ∈ files, isTextClass env f = false)
    (hmedia : ∀ f ∈ files, isAccepted env f = false) :
    OpenAILLM.GenerateWithFiles env { Model := model, PromptPrefix := "" } prompt files =
      OpenAILLM.Generate { Model := model, PromptPrefix := "" } prompt := by
  have h1 : files.filter (isAccepted env) = [] := by
    rw [List.filter_eq_nil_iff]
    intro f hf
    simp [hmedia f hf]
  have h2 : files.filter (fun f => !isAccepted env f && isTextClass env f) = [] := by
    rw [List.filter_eq_nil_iff]
    intro f hf
    simp [htext f hf]
  rw [GenerateWithFiles_noMedia env _ prompt files h1, h2, hcomb]
  simp [fullPromptOf, OpenAILLM.Generate]

/-- C1 (the code differs). With the prefix `P`, the prompt `x` and no file,
whatever the helper functions are, `GenerateWithFiles` sends the single
message content `P`, newline, `combinePromptWithFiles(fullPrompt, [])`,
where `fullPrompt` already is `P`, newline, `x`: the prefix is in the
request twice, and the content is not `combinePromptWithFiles(fullPrompt,
textFiles)`. -/
theorem GenerateWithFiles_textOnly_prefix_twice (env : Env) :
    (OpenAILLM.GenerateWithFiles env { Model := "gpt-4o-mini", PromptPrefix := "P" } "x" []
      ).Messages =
      [{ Role := ChatMessageRoleUser,
         Content := "P\n" ++ env.combinePromptWithFiles "P\nx" [],
         MultiContent := [] }] ∧
    fullPromptOf { Model := "gpt-4o-mini", PromptPrefix := "P" } "x" = "P\nx" ∧
    (partitionFiles env []).1 = [] ∧
    "P\n" ++ env.combinePromptWithFiles "P\nx" [] ≠ env.combinePromptWithFiles "P\nx" [] := by
  refine ⟨?_, by decide, rfl, append_ne_self _ _ (by decide)⟩
  rw [GenerateWithFiles_textOnly env _ "x" [] (by simp)]
  have e : fullPromptOf { Model := "gpt-4o-mini", PromptPrefix := "P" } "x" = "P\nx" := by
    decide
  simp only [e, List.filter_nil]
  have hp : ("P" : String) ≠ "" := by decide
  simp only [hp, ne_eq, not_false_eq_true, if_true]
  rfl

/-- C2 (the code differs). With the prefix `P`, the prompt `x` and the one
unsupported file `archive.zip` without declared MIME type, and helpers whose
`combinePromptWithFiles` returns the base prompt for no text file,
`GenerateWithFiles` sends the content `P`, newline, `P`, newline, `x`, while
`Generate` sends `P`, newline, `x` for the prompt alone. -/
theorem GenerateWithFiles_unsupported_ne_Generate :
    isTextClass sampleEnv { Name := "archive.zip", MIME := "", Data := [80, 75, 3, 4] } = false ∧
    isAccepted sampleEnv { Name := "archive.zip", MIME := "", Data := [80, 75, 3, 4] } = false ∧
    (∀ base, sampleEnv.combinePromptWithFiles base [] = base) ∧
    (OpenAILLM.GenerateWithFiles sampleEnv { Model := "gpt-4o-mini", PromptPrefix := "P" } "x"
        [{ Name := "archive.zip", MIME := "", Data := [80, 75, 3, 4] }]).Messages =
      [{ Role := ChatMessageRoleUser, Content := "P\nP\nx", MultiContent := [] }] ∧
    (OpenAILLM.Generate { Model := "gpt-4o-mini", PromptPrefix := "P" } "x").Messages =
      [{ Role := ChatMessageRoleUser, Content := "P\nx", MultiContent := [] }] ∧
    OpenAILLM.GenerateWithFiles sampleEnv { Model := "gpt-4o-mini", PromptPrefix := "P" } "x"
        [{ Name := "archive.zip", MIME := "", Data := [80, 75, 3, 4] }] ≠
      OpenAILLM.Generate { Model := "gpt-4o-mini", PromptPrefix := "P" } "x" := by
  refine ⟨by decide, by decide, fun _ => rfl, by decide, by decide, by decide⟩

theorem filter_isAccepted_ne_nil (env : Env) (files : List File)
    (hmedia : ∃ f ∈ files, isAccepted env f = true) :
    files.filter (isAccepted env) ≠ [] := by
  obtain ⟨f, hf, ha⟩ := hmedia
  intro h
  have : f ∈ files.filter (isAccepted env) := List.mem_filter.2 ⟨hf, ha⟩
  rw [h] at this
  exact List.not_mem_nil f this

/-- The parts of the multi-part request: the text part, then the media
parts of the accepted files. -/
theorem contentPartsOf_media (env : Env) (o : OpenAILLM) (prompt : String)
    (files : List File) (hmedia : ∃ f ∈ files, isAccepted env f = true) :
    contentPartsOf (o.GenerateWithFiles env prompt files) =
      { PartType := .Text,
        Text :=
          if ((partitionFiles env files).1).length > 0
          then env.combinePromptWithFiles (fullPromptOf o prompt) (partitionFiles env files).1
          else fullPromptOf o prompt,
        ImageURL := none } ::
      (files.filter (isAccepted env)).map (mediaPartOf env) := by
  rw [GenerateWithFiles_media env o prompt files (filter_isAccepted_ne_nil env files hmedia),
    partitionFiles_eq]
  simp [contentPartsOf]

/-- C3. When some file is a provider-accepted image or video, and
`combinePromptWithFiles` returns the base prompt for no text file, the
request of `GenerateWithFiles` has one message, its multi-part content is
not empty, its first part is the text part with the text
`combinePromptWithFiles(fullPrompt, textFiles)`, and it has exactly one text
part. -/
theorem GenerateWithFiles_text_part (env : Env) (o : OpenAILLM) (prompt : String)
    (files : List File)
    (hcomb : ∀ base, env.combinePromptWithFiles base [] = base)
    (hmedia : ∃ f ∈ files, isAccepted env f = true) :
    (∃ m, (o.GenerateWithFiles env prompt files).Messages = [m] ∧ m.Content = "") ∧
    contentPartsOf (o.GenerateWithFiles env prompt files) ≠ [] ∧
    (contentPartsOf (o.GenerateWithFiles env prompt files)).head? =
      some { PartType := .Text,
             Text := env.combinePromptWithFiles (fullPromptOf o prompt)
               (partitionFiles env files).1,
             ImageURL := none } ∧
    (contentPartsOf (o.GenerateWithFiles env prompt files)).countP
      (fun p => p.PartType == .Text) = 1 := by
  have htext :
      (if ((partitionFiles env files).1).length > 0
        then env.combinePromptWithFiles (fullPromptOf o prompt) (partitionFiles env files).1
        else fullPromptOf o prompt) =
      env.combinePromptWithFiles (fullPromptOf o prompt) (partitionFiles env files).1 := by
    by_cases hl : ((partitionFiles env files).1).length > 0
    · simp [hl]
    · have hnil : (partitionFiles env files).1 = [] := by
        apply List.length_eq_zero.1
        omega
      simp [hnil, hcomb]
  rw [contentPartsOf_media env o prompt files hmedia, htext]
  refine ⟨?_, by simp, by simp, ?_⟩
  · rw [GenerateWithFiles_media env o prompt files (filter_isAccepted_ne_nil env files hmedia)]
    exact ⟨_, rfl, rfl⟩
  · rw [List.countP_cons_of_pos]
    · have : (List.map (mediaPartOf env) (files.filter (isAccepted env))).countP
          (fun p => p.PartType == .Text) = 0 := by
        rw [List.countP_eq_zero]
        intro p hp
        obtain ⟨f, _, rfl⟩ := List.mem_map.1 hp
        simp [mediaPartOf]
      rw [this]
    · simp

/-- C3, at a concrete input: a prefix, a text file and a PNG file. -/
theorem GenerateWithFiles_text_part_witness :
    (∃ m, (OpenAILLM.GenerateWithFiles sampleEnv { Model := "gpt-4o-mini", PromptPrefix := "P" }
        "x" [{ Name := "n.txt", MIME := "", Data := [104, 105] },
             { Name := "a.png", MIME := "", Data := [137, 80] }]).Messages = [m] ∧
      m.Content = "") ∧
    contentPartsOf (OpenAILLM.GenerateWithFiles sampleEnv
        { Model := "gpt-4o-mini", PromptPrefix := "P" }
        "x" [{ Name := "n.txt", MIME := "", Data := [104, 105] },
             { Name := "a.png", MIME := "", Data := [137, 80] }]) ≠ [] ∧
    (contentPartsOf (OpenAILLM.GenerateWithFiles sampleEnv
        { Model := "gpt-4o-mini", PromptPrefix := "P" }
        "x" [{ Name := "n.txt", MIME := "", Data := [104, 105] },
             { Name := "a.png", MIME := "", Data := [137, 80] }])).head? =
      some { PartType := .Text,
             Text := sampleEnv.combinePromptWithFiles
               (fullPromptOf { Model := "gpt-4o-mini", PromptPrefix := "P" } "x")
               (partitionFiles sampleEnv
                 [{ Name := "n.txt", MIME := "", Data := [104, 105] },
                  { Name := "a.png", MIME := "", Data := [137, 80] }]).1,
             ImageURL := none } ∧
    (contentPartsOf (OpenAILLM.GenerateWithFiles sampleEnv
        { Model := "gpt-4o-mini", PromptPrefix := "P" }
        "x" [{ Name := "n.txt", MIME := "", Data := [104, 105] },
             { Name := "a.png", MIME := "", Data := [137, 80] }])).countP
      (fun p => p.PartType == .Text) = 1 :=
  GenerateWithFiles_text_part sampleEnv { Model := "gpt-4o-mini", PromptPrefix := "P" } "x"
    [{ Name := "n.txt", MIME := "", Data := [104, 105] },
     { Name := "a.png", MIME := "", Data := [137, 80] }]
    (fun _ => rfl)
    ⟨{ Name := "a.png", MIME := "", Data := [137, 80] }, by simp, by decide⟩

/-- C4. When some file is a provider-accepted image or video, the parts
after the first part of the content are the media parts of the accepted
files, one per file and in the input order of the files, and the content has
one part more than there are accepted files. -/
theorem GenerateWithFiles_media_parts (env : Env) (o : OpenAILLM) (prompt : String)
    (files : List File) (hmedia : ∃ f ∈ files, isAccepted env f = true) :
    (partitionFiles env files).2 = files.filter (isAccepted env) ∧
    (contentPartsOf (o.GenerateWithFiles env prompt files)).tail =
      (files.filter (isAccepted env)).map (mediaPartOf env) ∧
    (∀ i f, (files.filter (isAccepted env))[i]? = some f →
      (contentPartsOf (o.GenerateWithFiles env prompt files))[i + 1]? =
        some (mediaPartOf env f)) ∧
    (contentPartsOf (o.GenerateWithFiles env prompt files)).length =
      1 + (files.filter (isAccepted env)).length := by
  rw [contentPartsOf_media env o prompt files hmedia, partitionFiles_eq]
  refine ⟨rfl, rfl, ?_, ?_⟩
  · intro i f hf
    simp [List.getElem?_map, hf]
  · simp
    omega

/-- C4, at a concrete input: a PNG file, a text file and a video file. -/
theorem GenerateWithFiles_media_parts_witness :
    (contentPartsOf (OpenAILLM.GenerateWithFiles sampleEnv
        { Model := "gpt-4o-mini", PromptPrefix := "" } "x"
        [{ Name := "a.png", MIME := "", Data := [137, 80] },
         { Name := "n.txt", MIME := "", Data := [104, 105] },
         { Name := "v", MIME := "Video/MP4", Data := [0] }])).tail =
      [mediaPartOf sampleEnv { Name := "a.png", MIME := "", Data := [137, 80] },
       mediaPartOf sampleEnv { Name := "v", MIME := "Video/MP4", Data := [0] }] := by
  have h := (GenerateWithFiles_media_parts sampleEnv
    { Model := "gpt-4o-mini", PromptPrefix := "" } "x"
    [{ Name := "a.png", MIME := "", Data := [137, 80] },
     { Name := "n.txt", MIME := "", Data := [104, 105] },
     { Name := "v", MIME := "Video/MP4", Data := [0] }]
    ⟨{ Name := "a.png", MIME := "", Data := [137, 80] }, by simp, by decide⟩).2.1
  rw [h]
  decide

/-- C6. In the partition step, with a classification that gives a MIME type
one class (no MIME type is both text and image or video): `textFiles` are the text-classified files and
`mediaFiles` the image- or video-classified files whose MIME type
`getOpenAIMimeType` accepts, both in input order; no file is in both lists;
a file that is neither text-classified nor an accepted media file is in
neither list. -/
theorem partitionFiles_spec (env : Env) (files : List File) (hclass : env.singleClass) :
    (partitionFiles env files).1 = files.filter (isTextClass env) ∧
    (partitionFiles env files).2 = files.filter (isAccepted env) ∧
    (∀ f, f ∈ (partitionFiles env files).1 ↔ f ∈ files ∧ isTextClass env f = true) ∧
    (∀ f, f ∈ (partitionFiles env files).2 ↔
      f ∈ files ∧ isMediaClass env f = true ∧
        getOpenAIMimeType env.unicodeToLower (mimeOf env f) ≠ "") ∧
    (∀ f, ¬ (f ∈ (partitionFiles env files).1 ∧ f ∈ (partitionFiles env files).2)) ∧
    (∀ f, isTextClass env f = false →
      (isMediaClass env f = false ∨
        getOpenAIMimeType env.unicodeToLower (mimeOf env f) = "") →
      f ∉ (partitionFiles env files).1 ∧ f ∉ (partitionFiles env files).2) := by
  have hexcl : ∀ f, isTextClass env f = true → isAccepted env f = false := by
    intro f hf
    have := hclass _ hf
    simp [isAccepted, isMediaClass, this]
  have h1 : files.filter (fun f => !isAccepted env f && isTextClass env f) =
      files.filter (isTextClass env) := by
    apply List.filter_congr
    intro f _
    by_cases ht : isTextClass env f = true
    · simp [ht, hexcl f ht]
    · simp [ht]
  rw [partitionFiles_eq, h1]
  refine ⟨rfl, rfl, ?_, ?_, ?_, ?_⟩
  · intro f
    simp [List.mem_filter]
  · intro f
    simp [List.mem_filter, isAccepted]
  · rintro f ⟨ht, hm⟩
    have ht' := (List.mem_filter.1 ht).2
    have hm' := (List.mem_filter.1 hm).2
    rw [hexcl f ht'] at hm'
    exact Bool.false_ne_true hm'
  · intro f ht hm
    constructor
    · intro hmem
      rw [(List.mem_filter.1 hmem).2] at ht
      exact Bool.noConfusion ht
    · intro hmem
      have ha := (List.mem_filter.1 hmem).2
      simp only [isAccepted, Bool.and_eq_true, bne_iff_ne, ne_eq] at ha
      rcases hm with hm | hm
      · rw [hm] at ha
        exact Bool.false_ne_true ha.1
      · exact ha.2 hm

theorem hasPrefix_text_not_media (mt : String) (h : HasPrefix mt "text/" = true) :
    HasPrefix mt "image/" = false ∧ HasPrefix mt "video/" = false := by
  unfold HasPrefix at *
  have e0 : "text/".data = ['t', 'e', 'x', 't', '/'] := rfl
  have e1 : "image/".data = ['i', 'm', 'a', 'g', 'e', '/'] := rfl
  have e2 : "video/".data = ['v', 'i', 'd', 'e', 'o', '/'] := rfl
  rw [e0] at h
  rw [e1, e2]
  cases hm : mt.data with
  | nil => rw [hm] at h; simp [List.isPrefixOf] at h
  | cons c cs =>
    rw [hm] at h
    simp only [List.isPrefixOf, Bool.and_eq_true, beq_iff_eq] at h
    rw [← h.1]
    simp [List.isPrefixOf]

theorem sampleEnv_singleClass : sampleEnv.singleClass := by
  intro mt ht
  have h := hasPrefix_text_not_media mt ht
  show (HasPrefix mt "image/" || HasPrefix mt "video/") = false
  rw [h.1, h.2]
  rfl

/-- C6, at a concrete input: a text file, a PNG file, a BMP file (an image
subtype the provider rejects) and an archive. -/
theorem partitionFiles_spec_witness :
    (partitionFiles sampleEnv
      [{ Name := "n.txt", MIME := "", Data := [104, 105] },
       { Name := "a.png", MIME := "", Data := [137, 80] },
       { Name := "b", MIME := "image/bmp", Data := [66, 77] },
       { Name := "archive.zip", MIME := "", Data := [80, 75, 3, 4] }]) =
      ([{ Name := "n.txt", MIME := "", Data := [104, 105] }],
       [{ Name := "a.png", MIME := "", Data := [137, 80] }]) := by
  have h := partitionFiles_spec sampleEnv
    [{ Name := "n.txt", MIME := "", Data := [104, 105] },
     { Name := "a.png", MIME := "", Data := [137, 80] },
     { Name := "b", MIME := "image/bmp", Data := [66, 77] },
     { Name := "archive.zip", MIME := "", Data := [80, 75, 3, 4] }]
    sampleEnv_singleClass
  apply Prod.ext
  · rw [h.1]
    decide
  · rw [h.2.1]
    decide

/-- C7. For the `i`-th provider-accepted media file `f`, the part after the
text part at position `i` is an image-URL part whose URL is `data:`, the
provider MIME type of `f`, `;base64,` and the padded standard base64 text of
the bytes of `f`; the text after the last comma of the URL is that base64
text and decodes to the bytes of `f`; and when the normalized MIME type of
`f` is `image/jpg` up to case and outer white space, the URL starts with
`data:image/jpeg;base64,`. -/
theorem GenerateWithFiles_dataURL (env : Env) (o : OpenAILLM) (prompt : String)
    (files : List File) (i : Nat) (f : File)
    (hf : (files.filter (isAccepted env))[i]? = some f) :
    ∃ part img,
      (contentPartsOf (o.GenerateWithFiles env prompt files))[i + 1]? = some part ∧
      part.PartType = .ImageURL ∧
      part.ImageURL = some img ∧
      img.URL = "data:" ++ getOpenAIMimeType env.unicodeToLower (mimeOf env f) ++ ";base64," ++
        EncodeToString f.Data ∧
      textAfterLastComma img.URL = EncodeToString f.Data ∧
      DecodeString (textAfterLastComma img.URL) = some f.Data ∧
      (canonMime env.unicodeToLower (mimeOf env f) = "image/jpg" →
        HasPrefix img.URL "data:image/jpeg;base64," = true) := by
  have hmem : f ∈ files.filter (isAccepted env) := List.getElem?_mem hf
  have hmedia : ∃ g ∈ files, isAccepted env g = true :=
    ⟨f, (List.mem_filter.1 hmem).1, (List.mem_filter.1 hmem).2⟩
  refine ⟨mediaPartOf env f, ⟨dataURLOf env f, _⟩, ?_, rfl, rfl, rfl, ?_, ?_, ?_⟩
  · rw [contentPartsOf_media env o prompt files hmedia]
    simp [List.getElem?_map, hf]
  · exact textAfterLastComma_dataURL _ _
  · show DecodeString (textAfterLastComma (dataURLOf env f)) = some f.Data
    unfold dataURLOf
    rw [textAfterLastComma_dataURL, DecodeString_EncodeToString]
  · intro hj
    have hm : getOpenAIMimeType env.unicodeToLower (mimeOf env f) = "image/jpeg" :=
      getOpenAIMimeType_jpg env.unicodeToLower (mimeOf env f) hj
    show HasPrefix (dataURLOf env f) "data:image/jpeg;base64," = true
    unfold dataURLOf HasPrefix
    rw [hm]
    simp only [String.data_append]
    rw [List.isPrefixOf_iff_prefix]
    exact ⟨(EncodeToString f.Data).data, by simp⟩

/-- C7, at a concrete input: a file declared `image/jpg` with the bytes
`M`, `a`, `n`. -/
theorem GenerateWithFiles_dataURL_witness :
    ∃ part img,
      (contentPartsOf (OpenAILLM.GenerateWithFiles sampleEnv
        { Model := "gpt-4o-mini", PromptPrefix := "" } "x"
        [{ Name := "p", MIME := "image/jpg", Data := [77, 97, 110] }]))[0 + 1]? = some part ∧
      part.PartType = .ImageURL ∧
      part.ImageURL = some img ∧
      img.URL = "data:" ++ getOpenAIMimeType sampleEnv.unicodeToLower
          (mimeOf sampleEnv { Name := "p", MIME := "image/jpg", Data := [77, 97, 110] }) ++
        ";base64," ++ EncodeToString [77, 97, 110] ∧
      textAfterLastComma img.URL = EncodeToString [77, 97, 110] ∧
      DecodeString (textAfterLastComma img.URL) = some [77, 97, 110] ∧
      (canonMime sampleEnv.unicodeToLower
          (mimeOf sampleEnv { Name := "p", MIME := "image/jpg", Data := [77, 97, 110] }) =
          "image/jpg" →
        HasPrefix img.URL "data:image/jpeg;base64," = true) :=
  GenerateWithFiles_dataURL sampleEnv { Model := "gpt-4o-mini", PromptPrefix := "" } "x"
    [{ Name := "p", MIME := "image/jpg", Data := [77, 97, 110] }] 0
    { Name := "p", MIME := "image/jpg", Data := [77, 97, 110] } (by decide)


/-! ## Lemmas on `float64` -/

namespace Float64

theorem log2Fuel_eq (k : Nat) : ∀ fuel n : Nat, 2 ^ k ≤ n → n < 2 ^ (k + 1) → k ≤ fuel →
    log2Fuel fuel n = k := by
  induction k with
  | zero =>
    intro fuel n h1 h2 _
    have hn : n = 1 := by omega
    subst hn
    cases fuel <;> simp [log2Fuel]
  | succ k ih =>
    intro fuel n h1 h2 hf
    cases fuel with
    | zero => omega
    | succ f =>
      have hp : 2 ^ (k + 1) = 2 * 2 ^ k := by rw [pow_succ]; ring
      have hp2 : 2 ^ (k + 1 + 1) = 2 * (2 * 2 ^ k) := by rw [pow_succ, pow_succ]; ring
      have hk : 0 < 2 ^ k := Nat.two_pow_pos k
      have h2n : 2 ≤ n := by omega
      simp only [log2Fuel, h2n, if_true]
      rw [ih f (n / 2) (by omega) (by omega) (by omega)]

theorem ilog2_eq (k n : Nat) (h1 : 2 ^ k ≤ n) (h2 : n < 2 ^ (k + 1)) : ilog2 n = k := by
  unfold ilog2
  apply log2Fuel_eq k n n h1 h2
  have : k < 2 ^ k := Nat.lt_two_pow k
  omega


theorem roundHalfEven_mul (m d : Nat) (hd : 0 < d) : roundHalfEven (m * d) d = m := by
  unfold roundHalfEven
  have hq : m * d / d = m := Nat.mul_div_cancel m hd
  have hr : m * d % d = 0 := Nat.mul_mod_left m d
  simp only [hq, hr]
  have h1 : ¬ (d < 2 * 0 ∨ (2 * 0 = d ∧ m % 2 = 1)) := by omega
  rw [if_neg h1]

theorem floorLog2Rat_one (k n : Nat) (h1 : 2 ^ k ≤ n) (h2 : n < 2 ^ (k + 1)) :
    floorLog2Rat n 1 = k := by
  unfold floorLog2Rat
  have e1 : ilog2 1 = 0 := by decide
  rw [ilog2_eq k n h1 h2, e1]
  simp [h1]

theorem roundScaled_exact (s : Bool) (m n : Nat) (e : Int)
    (hm : m < 2 ^ 53) (he : e ≤ 971)
    (h : n * 2 ^ (-e).toNat = m * 2 ^ e.toNat) :
    roundScaled s n 1 e = fin s m e := by
  unfold roundScaled
  have hm' : ¬ m = 9007199254740992 := by omega
  have he' : ¬ (971 < e) := by omega
  by_cases hneg : e < 0
  · have h0 : e.toNat = 0 := by omega
    rw [h0] at h
    simp only [pow_zero, mul_one] at h
    simp only [hneg, if_true, h]
    have := roundHalfEven_mul m 1 (by decide)
    rw [mul_one] at this
    simp [this, hm', he']
  · have h0 : (-e).toNat = 0 := by omega
    rw [h0] at h
    simp only [pow_zero, mul_one] at h
    simp only [hneg, if_false, h, one_mul]
    rw [roundHalfEven_mul m _ (Nat.two_pow_pos _)]
    simp [hm', he']

theorem roundRat_exact (s : Bool) (m n : Nat) (e : Int)
    (hm1 : 2 ^ 52 ≤ m) (hm2 : m < 2 ^ 53) (he1 : -1074 ≤ e) (he2 : e ≤ 971)
    (h : n * 2 ^ (-e).toNat = m * 2 ^ e.toNat) :
    roundRat s n 1 = fin s m e := by
  have hfl : floorLog2Rat n 1 = e + 52 := by
    by_cases hneg : e < 0
    · have h0 : e.toNat = 0 := by omega
      rw [h0] at h
      simp only [pow_zero, mul_one] at h
      obtain ⟨j, hj⟩ : ∃ j : Nat, (-e).toNat = j := ⟨_, rfl⟩
      rw [hj] at h
      have hj52 : j ≤ 52 := by
        by_contra hc
        have : 2 ^ 53 ≤ 2 ^ j := Nat.pow_le_pow_right (by decide) (by omega)
        have hn1 : 1 ≤ n := by
          rcases Nat.eq_zero_or_pos n with h0 | h0
          · subst h0; simp at h; omega
          · exact h0
        have : 2 ^ j ≤ n * 2 ^ j := Nat.le_mul_of_pos_left _ hn1
        omega
      have hsplit : (2 : Nat) ^ 52 = 2 ^ (52 - j) * 2 ^ j := by
        rw [← pow_add]; congr 1; omega
      have hsplit2 : (2 : Nat) ^ 53 = 2 ^ (52 - j + 1) * 2 ^ j := by
        rw [← pow_add]; congr 1; omega
      have hpos : 0 < 2 ^ j := Nat.two_pow_pos j
      have hlo : 2 ^ (52 - j) ≤ n := by
        by_contra hc
        have : n * 2 ^ j < 2 ^ (52 - j) * 2 ^ j := Nat.mul_lt_mul_of_pos_right (by omega) hpos
        omega
      have hhi : n < 2 ^ (52 - j + 1) := by
        by_contra hc
        have : 2 ^ (52 - j + 1) * 2 ^ j ≤ n * 2 ^ j := Nat.mul_le_mul_right _ (by omega)
        omega
      rw [floorLog2Rat_one (52 - j) n hlo hhi]
      omega
    · have h0 : (-e).toNat = 0 := by omega
      rw [h0] at h
      simp only [pow_zero, mul_one] at h
      obtain ⟨k, hk⟩ : ∃ k : Nat, e.toNat = k := ⟨_, rfl⟩
      rw [hk] at h
      have hpos : 0 < 2 ^ k := Nat.two_pow_pos k
      have hlo : 2 ^ (52 + k) ≤ n := by
        rw [h, pow_add]
        exact Nat.mul_le_mul_right _ hm1
      have hhi : n < 2 ^ (52 + k + 1) := by
        have : (2 : Nat) ^ (52 + k + 1) = 2 ^ 53 * 2 ^ k := by
          rw [← pow_add]; congr 1; omega
        rw [h, this]
        exact Nat.mul_lt_mul_of_pos_right hm2 hpos
      rw [floorLog2Rat_one (52 + k) n hlo hhi]
      omega
  have hn0 : n ≠ 0 := by
    intro h0
    subst h0
    rw [Nat.zero_mul] at h
    have : 0 < m * 2 ^ e.toNat := Nat.mul_pos (by omega) (Nat.two_pow_pos _)
    omega
  unfold roundRat
  simp only [hn0, if_false, hfl]
  have hmax : max (e + 52 - 52) (-1074) = e := by
    rw [max_eq_left (by omega)]
    omega
  rw [hmax]
  exact roundScaled_exact s m n e hm2 he2 h


/-- The conversion of an integer is the only well-formed `float64` with that
value, negative zero apart. -/
theorem eq_ofInt_of_represents (f : Float64) (x : Int) (hwf : f.wf = true)
    (hr : f.represents x = true) (hnz : f ≠ negZero) : f = ofInt x := by
  cases f with
  | nan => simp [represents] at hr
  | inf s => simp [represents] at hr
  | fin s m e =>
    simp only [wf, Bool.and_eq_true, Bool.or_eq_true, decide_eq_true_eq] at hwf
    obtain ⟨⟨⟨hm2, he1⟩, he2⟩, hnorm⟩ := hwf
    simp only [represents, decide_eq_true_eq] at hr
    have hP : (0 : Int) < 2 ^ e.toNat := by positivity
    have hQ : (0 : Int) < 2 ^ (-e).toNat := by positivity
    rcases Nat.eq_zero_or_pos m with hm0 | hmpos
    · subst hm0
      have he : e = -1074 := by
        rcases hnorm with h | h
        · omega
        · exact h
      subst he
      have hx : x = 0 := by
        simp only [Nat.cast_zero, mul_zero, zero_mul] at hr
        rcases mul_eq_zero.1 hr.symm with h | h
        · exact h
        · omega
      subst hx
      cases s with
      | true => exact absurd rfl hnz
      | false => decide
    · have hmI : (0 : Int) < (m : Int) := by exact_mod_cast hmpos
      have hsign : decide (x < 0) = s ∧
          (x.natAbs : Int) * 2 ^ (-e).toNat = (m : Int) * 2 ^ e.toNat := by
        cases s with
        | true =>
          simp only [if_true] at hr
          have hlt : x * 2 ^ (-e).toNat < 0 := by
            rw [← hr]
            have : (0 : Int) < (m : Int) * 2 ^ e.toNat := mul_pos hmI hP
            linarith
          have hx : x < 0 := by
            by_contra hc
            have : 0 ≤ x * 2 ^ (-e).toNat := mul_nonneg (by omega) hQ.le
            omega
          refine ⟨by simp [hx], ?_⟩
          have : (x.natAbs : Int) = -x := by omega
          rw [this]
          linarith
        | false =>
          simp only [Bool.false_eq_true, if_false, one_mul] at hr
          have hgt : 0 < x * 2 ^ (-e).toNat := by
            rw [← hr]
            exact mul_pos hmI hP
          have hx : 0 < x := by
            by_contra hc
            have : x * 2 ^ (-e).toNat ≤ 0 :=
              mul_nonpos_of_nonpos_of_nonneg (by omega) hQ.le
            omega
          refine ⟨by simp; omega, ?_⟩
          have : (x.natAbs : Int) = x := by omega
          rw [this]
          linarith
      obtain ⟨hs, hnat⟩ := hsign
      have hnat' : x.natAbs * 2 ^ (-e).toNat = m * 2 ^ e.toNat := by exact_mod_cast hnat
      have hm1 : 2 ^ 52 ≤ m := by
        rcases hnorm with h | h
        · exact h
        · subst h
          have h1 : (-(-1074 : Int)).toNat = 1074 := by decide
          have h2 : ((-1074 : Int)).toNat = 0 := by decide
          rw [h1, h2, pow_zero, mul_one] at hnat'
          have hmono : ∀ a b : Nat, a ≤ b → (2 : Nat) ^ a ≤ 2 ^ b :=
            fun a b hab => Nat.pow_le_pow_right (by decide) hab
          have hbig := hmono 53 1074 (by decide)
          generalize (2 : Nat) ^ 1074 = T at hnat' hbig
          have hn1 : 1 ≤ x.natAbs := by
            rcases Nat.eq_zero_or_pos x.natAbs with h0 | h0
            · rw [h0, Nat.zero_mul] at hnat'
              omega
            · exact h0
          have hle : T ≤ x.natAbs * T := Nat.le_mul_of_pos_left _ hn1
          omega
      unfold ofInt
      rw [hs]
      exact (roundRat_exact s m x.natAbs e hm1 hm2 he1 he2 hnat').symm

theorem roundHalfEven_scale (c N D : Nat) (hc : 0 < c) :
    roundHalfEven (c * N) (c * D) = roundHalfEven N D := by
  unfold roundHalfEven
  rw [Nat.mul_div_mul_left N D hc, Nat.mul_mod_mul_left]
  have h1 : c * D < 2 * (c * (N % D)) ↔ D < 2 * (N % D) := by
    rw [show 2 * (c * (N % D)) = c * (2 * (N % D)) by ring]
    exact Nat.mul_lt_mul_left hc
  have h2 : 2 * (c * (N % D)) = c * D ↔ 2 * (N % D) = D := by
    rw [show 2 * (c * (N % D)) = c * (2 * (N % D)) by ring]
    exact Nat.mul_left_cancel_iff hc
  simp only [h1, h2]

theorem ilog2_spec (n : Nat) (hn : 0 < n) : 2 ^ ilog2 n ≤ n ∧ n < 2 ^ (ilog2 n + 1) := by
  have h1 : 2 ^ Nat.log 2 n ≤ n := Nat.pow_log_le_self 2 (by omega)
  have h2 : n < 2 ^ (Nat.log 2 n + 1) := Nat.lt_pow_succ_log_self (by decide) n
  rw [ilog2_eq (Nat.log 2 n) n h1 h2]
  exact ⟨h1, h2⟩

theorem floorLog2Rat_scale (k d : Nat) (hk : 0 < k) (hd : 0 < d) :
    floorLog2Rat (k * d) d = ilog2 k := by
  unfold floorLog2Rat
  obtain ⟨ka, kb⟩ := ilog2_spec k hk
  obtain ⟨da, db⟩ := ilog2_spec d hd
  obtain ⟨pa, pb⟩ := ilog2_spec (k * d) (Nat.mul_pos hk hd)
  generalize ilog2 k = a at *
  generalize ilog2 d = b at *
  generalize ilog2 (k * d) = c at *
  -- c is a + b or a + b + 1
  have hlo : 2 ^ (a + b) ≤ k * d := by
    rw [pow_add]; exact Nat.mul_le_mul ka da
  have hhi : k * d < 2 ^ (a + b + 2) := by
    have : 2 ^ (a + b + 2) = 2 ^ (a + 1) * 2 ^ (b + 1) := by ring
    rw [this]
    exact Nat.mul_lt_mul'' kb db
  have hc1 : a + b ≤ c := by
    by_contra hcon
    have : 2 ^ (c + 1) ≤ 2 ^ (a + b) := Nat.pow_le_pow_right (by decide) (by omega)
    omega
  have hc2 : c ≤ a + b + 1 := by
    by_contra hcon
    have : 2 ^ (a + b + 2) ≤ 2 ^ c := Nat.pow_le_pow_right (by decide) (by omega)
    omega
  have hl : (0 : Int) ≤ (c : Int) - (b : Int) := by omega
  simp only [hl, if_true]
  have hto : ((c : Int) - (b : Int)).toNat = c - b := by omega
  rw [hto]
  rcases Nat.lt_or_ge (a + b) c with h | h
  · -- c = a + b + 1
    have hcb : c - b = a + 1 := by omega
    rw [hcb]
    have hno : ¬ (d * 2 ^ (a + 1) ≤ k * d) := by
      intro hle
      rw [Nat.mul_comm d] at hle
      have := Nat.le_of_mul_le_mul_right hle hd
      omega
    simp only [hno, decide_False, Bool.false_eq_true, if_false]
    omega
  · have hcb : c - b = a := by omega
    rw [hcb]
    have hyes : d * 2 ^ a ≤ k * d := by
      rw [Nat.mul_comm d]
      exact Nat.mul_le_mul_right d ka
    simp only [hyes, decide_True, if_true]
    omega

theorem roundScaled_scale (s : Bool) (k d : Nat) (e : Int) (hd : 0 < d) :
    roundScaled s (k * d) d e = roundScaled s k 1 e := by
  unfold roundScaled
  by_cases hneg : e < 0
  · simp only [hneg, if_true]
    have : roundHalfEven (k * d * 2 ^ (-e).toNat) d = roundHalfEven (k * 2 ^ (-e).toNat) 1 := by
      have := roundHalfEven_scale d (k * 2 ^ (-e).toNat) 1 hd
      rw [Nat.mul_one] at this
      rw [← this]
      congr 1
      ring
    rw [this]
  · simp only [hneg, if_false]
    have : roundHalfEven (k * d) (d * 2 ^ e.toNat) = roundHalfEven k (1 * 2 ^ e.toNat) := by
      rw [Nat.one_mul, ← roundHalfEven_scale d k (2 ^ e.toNat) hd]
      congr 1
      ring
    rw [this]

theorem roundRat_scale (s : Bool) (k d : Nat) (hd : 0 < d) :
    roundRat s (k * d) d = roundRat s k 1 := by
  unfold roundRat
  rcases Nat.eq_zero_or_pos k with hk | hk
  · subst hk
    simp
  · have h1 : k * d ≠ 0 := Nat.pos_iff_ne_zero.1 (Nat.mul_pos hk hd)
    have h2 : k ≠ 0 := Nat.pos_iff_ne_zero.1 hk
    simp only [h1, h2, if_false]
    have e1 := floorLog2Rat_scale k d hk hd
    have e2 := floorLog2Rat_scale k 1 hk (by decide)
    rw [Nat.mul_one] at e2
    rw [e1, e2, roundScaled_scale s k d _ hd]

end Float64

/-! ## Lemmas on `strconv.ParseFloat` -/

theorem foldEq_head (a p : Char) (r q : List Char) (h : foldEq (a :: r) (p :: q) = true) :
    a = p ∨ a = Char.ofNat (p.toNat - 32) := by
  simp only [foldEq, Bool.and_eq_true, Bool.or_eq_true, beq_iff_eq] at h
  rcases h.1 with h1 | h1
  · exact Or.inl h1
  · right
    have : a.toNat = p.toNat - 32 := by omega
    rw [← this, Char.ofNat_toNat]

theorem isInfText_head (s : List Char) (h : isInfText s = true) :
    ∃ a r, s = a :: r ∧ (a = 'i' ∨ a = 'I') := by
  cases s with
  | nil => simp [isInfText, foldEq] at h
  | cons a r =>
    refine ⟨a, r, rfl, ?_⟩
    simp only [isInfText, Bool.or_eq_true] at h
    rcases h with h | h
    · exact foldEq_head a 'i' r _ h
    · exact foldEq_head a 'i' r _ h

theorem readMantissa_letter (st : Mantissa) (a : Char) (r : List Char)
    (ha : a = 'i' ∨ a = 'I' ∨ a = 'n' ∨ a = 'N') :
    readMantissa false st (a :: r) = (st, a :: r) := by
  rcases ha with rfl | rfl | rfl | rfl <;> simp [readMantissa, hexDigit]


theorem numberValue_letter (s : List Char) (a : Char) (r : List Char)
    (hs : s = a :: r ∨ s = '+' :: a :: r ∨ s = '-' :: a :: r)
    (ha : a = 'i' ∨ a = 'I' ∨ a = 'n' ∨ a = 'N') :
    numberValue ⟨s⟩ = none := by
  have hm := readMantissa_letter ⟨0, 0, false, false⟩ a r ha
  rcases hs with rfl | rfl | rfl <;> rcases ha with rfl | rfl | rfl | rfl <;>
    simp [numberValue, hm]

/-- No text is both a special value and a well-formed number. -/
theorem numberValue_of_special (text : String) (f : Float64)
    (h : specialValue text = some f) : numberValue text = none := by
  obtain ⟨s⟩ := text
  unfold specialValue at h
  split at h
  · rename_i r hr
    have hr' : s = '+' :: r := hr
    split at h
    · rename_i hi
      obtain ⟨a, q, rfl, ha⟩ := isInfText_head r hi
      exact numberValue_letter s a q (Or.inr (Or.inl hr'))
        (ha.elim Or.inl (fun h => Or.inr (Or.inl h)))
    · exact Option.noConfusion h
  · rename_i r hr
    have hr' : s = '-' :: r := hr
    split at h
    · rename_i hi
      obtain ⟨a, q, rfl, ha⟩ := isInfText_head r hi
      exact numberValue_letter s a q (Or.inr (Or.inr hr'))
        (ha.elim Or.inl (fun h => Or.inr (Or.inl h)))
    · exact Option.noConfusion h
  · split at h
    · rename_i hi
      obtain ⟨a, q, hq, ha⟩ := isInfText_head _ hi
      exact numberValue_letter s a q (Or.inl hq)
        (ha.elim Or.inl (fun h => Or.inr (Or.inl h)))
    · split at h
      · rename_i hn
        cases hs : s with
        | nil => rw [hs] at hn; simp [foldEq] at hn
        | cons a q =>
          have hn' : foldEq (a :: q) ['n', 'a', 'n'] = true := by rw [← hs]; exact hn
          have ha := foldEq_head a 'n' q _ hn'
          exact numberValue_letter (a :: q) a q (Or.inl rfl)
            (ha.elim (fun h => Or.inr (Or.inr (Or.inl h))) (fun h => Or.inr (Or.inr (Or.inr h))))
      · exact Option.noConfusion h

/-! ## The claims on the calculator tool -/

theorem operandOf_eq_none (parseFloat : String → Float64 × Bool) (v : Value)
    (h : v.isNumberType = false) : operandOf parseFloat v = none := by
  cases v <;> simp_all [Value.isNumberType, operandOf]

theorem Invoke_operation_missing (parseFloat : String → Float64 × Bool) (args : Arguments)
    (hop : ∀ operation, args.get "operation" ≠ .string operation) :
    CalculatorTool.Invoke parseFloat args =
      ({ Content := "", Error := "缺少 operation 参数" }, none) := by
  cases h : args.get "operation" <;> simp only [CalculatorTool.Invoke, h]
  exact absurd h (hop _)

theorem Invoke_a_invalid (parseFloat : String → Float64 × Bool) (args : Arguments)
    (operation : String) (hop : args.get "operation" = .string operation)
    (ha : operandOf parseFloat (args.get "a") = none) :
    CalculatorTool.Invoke parseFloat args =
      ({ Content := "", Error := "参数 a 必须是数字" }, none) := by
  simp only [CalculatorTool.Invoke, hop, ha]

theorem Invoke_b_invalid (parseFloat : String → Float64 × Bool) (args : Arguments)
    (operation : String) (a : Float64) (hop : args.get "operation" = .string operation)
    (ha : operandOf parseFloat (args.get "a") = some a)
    (hb : operandOf parseFloat (args.get "b") = none) :
    CalculatorTool.Invoke parseFloat args =
      ({ Content := "", Error := "参数 b 必须是数字" }, none) := by
  simp only [CalculatorTool.Invoke, hop, ha, hb]

theorem Invoke_calculate (parseFloat : String → Float64 × Bool) (args : Arguments)
    (operation : String) (a b : Float64) (hop : args.get "operation" = .string operation)
    (ha : operandOf parseFloat (args.get "a") = some a)
    (hb : operandOf parseFloat (args.get "b") = some b) :
    CalculatorTool.Invoke parseFloat args = calculate operation a b := by
  simp only [CalculatorTool.Invoke, hop, ha, hb, calculate]

/-- An operand that is absent, a string, a boolean, a nested object or of
any type other than `float64`, `int` and `json.Number` gives an error
response. -/
theorem Invoke_rejects_operand (parseFloat : String → Float64 × Bool) (args : Arguments)
    (h : (args.get "a").isNumberType = false ∨ (args.get "b").isNumberType = false) :
    (CalculatorTool.Invoke parseFloat args).1.Error ≠ "" ∧
    (CalculatorTool.Invoke parseFloat args).1.Content = "" ∧
    (CalculatorTool.Invoke parseFloat args).2 = none := by
  have hnone : operandOf parseFloat (args.get "a") = none ∨
      operandOf parseFloat (args.get "b") = none :=
    h.imp (operandOf_eq_none parseFloat _) (operandOf_eq_none parseFloat _)
  by_cases hop : ∃ operation, args.get "operation" = .string operation
  · obtain ⟨operation, hop⟩ := hop
    cases ha : operandOf parseFloat (args.get "a") with
    | none =>
      rw [Invoke_a_invalid parseFloat args operation hop ha]
      exact ⟨by decide, rfl, rfl⟩
    | some a =>
      have hb : operandOf parseFloat (args.get "b") = none := by
        rcases hnone with h | h
        · rw [h] at ha
          exact Option.noConfusion ha
        · exact h
      rw [Invoke_b_invalid parseFloat args operation a hop ha hb]
      exact ⟨by decide, rfl, rfl⟩
  · rw [Invoke_operation_missing parseFloat args (fun op h => hop ⟨op, h⟩)]
    exact ⟨by decide, rfl, rfl⟩

/-- C8 (the code differs). For the arguments `operation: "add"`,
`a: json.Number("abc")`, `b: 3`, whatever `json.Number.Float64` returns for
the text `abc`, `Invoke` returns an empty `Error` and the content built from
the `float64` that came with the dropped error; with a `Float64` that
returns 0 and an error for `abc`, the response is the content
`0.00 + 3.00 = 3.00` with an empty `Error`. -/
theorem Invoke_unparsable_number (parseFloat : String → Float64 × Bool) :
    (CalculatorTool.Invoke parseFloat
      [("operation", .string "add"), ("a", .jsonNumber "abc"), ("b", .int 3)]) =
      ({ Content := Float64.fmt2 (parseFloat "abc").1 ++ " + 3.00 = " ++
           Float64.fmt2 (Float64.add (parseFloat "abc").1 (Float64.ofInt 3)),
         Error := "" }, none) ∧
    ParseFloat "abc" = (Float64.zero, false) ∧
    (CalculatorTool.Invoke ParseFloat
      [("operation", .string "add"), ("a", .jsonNumber "abc"), ("b", .int 3)]) =
      ({ Content := "0.00 + 3.00 = 3.00", Error := "" }, none) := by
  refine ⟨?_, by decide, by decide!⟩
  have h3 : Float64.fmt2 (Float64.ofInt 3) = "3.00" := by decide
  have e : (CalculatorTool.Invoke parseFloat
      [("operation", .string "add"), ("a", .jsonNumber "abc"), ("b", .int 3)]) =
      ({ Content := Float64.fmt2 (parseFloat "abc").1 ++ " " ++ "+" ++ " " ++
           Float64.fmt2 (Float64.ofInt 3) ++ " = " ++
           Float64.fmt2 (Float64.add (parseFloat "abc").1 (Float64.ofInt 3)),
         Error := "" }, none) := rfl
  rw [e, h3]
  have hs : ∀ u v : String, u ++ " " ++ "+" ++ " " ++ "3.00" ++ " = " ++ v =
      u ++ " + 3.00 = " ++ v := by
    intro u v
    apply String.ext
    simp [String.data_append]
  rw [hs]

/-- C9. With the operation `divide`, an operand `a` in an accepted
encoding, and an operand `b` in an accepted encoding that decodes to a
`float64` equal to 0, `Invoke` returns a response with a non-empty `Error`,
an empty `Content`, and a nil error. -/
theorem Invoke_divide_by_zero (parseFloat : String → Float64 × Bool) (args : Arguments)
    (a b : Float64)
    (hop : args.get "operation" = .string "divide")
    (ha : operandOf parseFloat (args.get "a") = some a)
    (hb : operandOf parseFloat (args.get "b") = some b)
    (hz : Float64.eq b Float64.zero = true) :
    (CalculatorTool.Invoke parseFloat args).1.Error ≠ "" ∧
    (CalculatorTool.Invoke parseFloat args).1.Content = "" ∧
    (CalculatorTool.Invoke parseFloat args).2 = none := by
  rw [Invoke_calculate parseFloat args "divide" a b hop ha hb]
  have e : calculate "divide" a b = ({ Content := "", Error := "除数不能为零" }, none) := by
    have h1 : ("divide" : String) ≠ "add" := by decide
    have h2 : ("divide" : String) ≠ "subtract" := by decide
    have h3 : ("divide" : String) ≠ "multiply" := by decide
    simp only [calculate, h1, h2, h3, if_false, if_true, hz]
  rw [e]
  exact ⟨by decide, rfl, rfl⟩

/-- C9, at concrete inputs: `divide` with `a: 5` and `b: 0` as an `int`. -/
theorem Invoke_divide_by_zero_witness :
    (CalculatorTool.Invoke ParseFloat
      [("operation", .string "divide"), ("a", .int 5), ("b", .int 0)]).1.Error ≠ "" ∧
    (CalculatorTool.Invoke ParseFloat
      [("operation", .string "divide"), ("a", .int 5), ("b", .int 0)]).1.Content = "" ∧
    (CalculatorTool.Invoke ParseFloat
      [("operation", .string "divide"), ("a", .int 5), ("b", .int 0)]).2 = none :=
  Invoke_divide_by_zero ParseFloat
    [("operation", .string "divide"), ("a", .int 5), ("b", .int 0)]
    (Float64.ofInt 5) (Float64.ofInt 0) rfl rfl rfl (by decide)

/-- The model of `strconv.ParseFloat` reads well-formed numbers as its
documentation says. -/
theorem ParseFloat_readsNumbers : ReadsNumbers ParseFloat := by
  intro text neg n d h
  have hs : specialValue text = none := by
    cases hsp : specialValue text with
    | none => rfl
    | some f =>
      have := numberValue_of_special text f hsp
      rw [h] at this
      exact Option.noConfusion this
  simp only [ParseFloat, hs, h]

/-- A text that denotes the integer `x`, and is not a zero written with a
minus sign, is read as `float64(x)`. -/
theorem parseFloat_of_denotes (parseFloat : String → Float64 × Bool)
    (hgo : ReadsNumbers parseFloat) (text : String) (x : Int)
    (h : denotes text x = true) (hz : isMinusZero text = false) :
    (parseFloat text).1 = Float64.ofInt x := by
  unfold denotes at h
  unfold isMinusZero at hz
  cases hv : numberValue text with
  | none => rw [hv] at h; exact Bool.noConfusion h
  | some v =>
    obtain ⟨neg, n, d⟩ := v
    rw [hv] at h hz
    simp only [Bool.and_eq_true, decide_eq_true_eq] at h
    obtain ⟨hd, hval⟩ := h
    rw [hgo text neg n d hv]
    show Float64.roundRat neg n d = Float64.ofInt x
    have hdI : (0 : Int) < (d : Int) := by exact_mod_cast hd
    have hn : n = x.natAbs * d := by
      have h1 : (if neg then -(n : Int) else (n : Int)).natAbs = n := by
        cases neg <;> simp
      have h2 := congrArg Int.natAbs hval
      rw [h1, Int.natAbs_mul, Int.natAbs_ofNat] at h2
      exact h2
    have hsign : x.natAbs ≠ 0 → neg = decide (x < 0) := by
      intro hx0
      have hxne : x ≠ 0 := fun h0 => hx0 (by rw [h0]; rfl)
      cases neg with
      | true =>
        simp only [if_true] at hval
        have : x * (d : Int) ≤ 0 := by rw [← hval]; omega
        have hx : x < 0 := by
          by_contra hc
          have hpos : 0 < x := by omega
          have := mul_pos hpos hdI
          omega
        simp [hx]
      | false =>
        simp only [Bool.false_eq_true, if_false] at hval
        have : 0 ≤ x * (d : Int) := by rw [← hval]; omega
        have hx : ¬ x < 0 := by
          intro hc
          have := mul_neg_of_neg_of_pos hc hdI
          omega
        simp [hx]
    unfold Float64.ofInt
    rw [hn, Float64.roundRat_scale neg x.natAbs d hd]
    by_cases hx0 : x.natAbs = 0
    · have hn0 : n = 0 := by rw [hn, hx0, Nat.zero_mul]
      have hneg : neg = false := by
        cases neg with
        | false => rfl
        | true => simp [hn0] at hz
      have hx : x = 0 := Int.natAbs_eq_zero.1 hx0
      rw [hneg, hx]
      rfl
    · rw [hsign hx0]

theorem eq_ofInt_of_isInt (f : Float64) (x : Int) (h : f.isInt x = true) :
    f = Float64.ofInt x := by
  simp only [Float64.isInt, Bool.and_eq_true, decide_eq_true_eq] at h
  exact Float64.eq_ofInt_of_represents f x h.1.1 h.1.2 h.2

/-- C10, the claim as stated fails: negative zero is a well-formed `float64`
whose value is the integer 0, and the text `-0` denotes the integer 0, yet
for `operation: "add"` the operands `a: 0`, `b: 3` as `int` give the content
`0.00 + 3.00 = 3.00`, while the operands negative zero and 3 as `float64`
and the operands `-0` and `3` as `json.Number` give `-0.00 + 3.00 = 3.00`. -/
theorem Invoke_negative_zero_differs :
    Float64.negZero.wf = true ∧ Float64.negZero.represents 0 = true ∧
    Float64.eq Float64.negZero (Float64.ofInt 0) = true ∧
    (Float64.fin false 6755399441055744 (-51)).isInt 3 = true ∧
    denotes "-0" 0 = true ∧ denotes "3" 3 = true ∧
    (CalculatorTool.Invoke ParseFloat
      [("operation", .string "add"), ("a", .int 0), ("b", .int 3)]).1 =
      { Content := "0.00 + 3.00 = 3.00", Error := "" } ∧
    (CalculatorTool.Invoke ParseFloat
      [("operation", .string "add"), ("a", .float64 Float64.negZero),
       ("b", .float64 (Float64.fin false 6755399441055744 (-51)))]).1 =
      { Content := "-0.00 + 3.00 = 3.00", Error := "" } ∧
    (CalculatorTool.Invoke ParseFloat
      [("operation", .string "add"), ("a", .jsonNumber "-0"), ("b", .jsonNumber "3")]).1 =
      { Content := "-0.00 + 3.00 = 3.00", Error := "" } := by
  refine ⟨by decide, by decide!, by decide, by decide, by decide!, by decide!, by decide!,
    by decide!, by decide!⟩

/-- C10, amended. For every operation name and all integers `x` and `y`,
with a `Float64` of `json.Number` that reads well-formed numbers as
`strconv.ParseFloat` does, `Invoke` returns the same response and error
whether `a` and `b` are given as the `int` values `x` and `y`, as `float64`
values equal to `x` and `y` other than negative zero, or as `json.Number`
texts denoting `x` and `y` other than a zero written with a minus sign; and
`operation: "add"` with `a: 2`, `b: 3` as `int` and with `a: 2.0`, `b: 3.0`
as `float64` both give the content `2.00 + 3.00 = 5.00` with an empty
`Error`. -/
theorem Invoke_encodings_agree (parseFloat : String → Float64 × Bool)
    (hgo : ReadsNumbers parseFloat) (operation : String)
    (x y : Int) (fa fb : Float64) (tx ty : String)
    (ha : fa.isInt x = true) (hb : fb.isInt y = true)
    (hx : denotes tx x = true) (hy : denotes ty y = true)
    (hzx : isMinusZero tx = false) (hzy : isMinusZero ty = false) :
    CalculatorTool.Invoke parseFloat
        [("operation", .string operation), ("a", .float64 fa), ("b", .float64 fb)] =
      CalculatorTool.Invoke parseFloat
        [("operation", .string operation), ("a", .int x), ("b", .int y)] ∧
    CalculatorTool.Invoke parseFloat
        [("operation", .string operation), ("a", .jsonNumber tx), ("b", .jsonNumber ty)] =
      CalculatorTool.Invoke parseFloat
        [("operation", .string operation), ("a", .int x), ("b", .int y)] ∧
    CalculatorTool.Invoke parseFloat
        [("operation", .string "add"), ("a", .int 2), ("b", .int 3)] =
      ({ Content := "2.00 + 3.00 = 5.00", Error := "" }, none) ∧
    CalculatorTool.Invoke parseFloat
        [("operation", .string "add"), ("a", .float64 (.fin false 4503599627370496 (-51))),
         ("b", .float64 (.fin false 6755399441055744 (-51)))] =
      ({ Content := "2.00 + 3.00 = 5.00", Error := "" }, none) := by
  have hint : CalculatorTool.Invoke parseFloat
      [("operation", .string operation), ("a", .int x), ("b", .int y)] =
      calculate operation (Float64.ofInt x) (Float64.ofInt y) :=
    Invoke_calculate parseFloat _ operation _ _ rfl rfl rfl
  have hfloat : CalculatorTool.Invoke parseFloat
      [("operation", .string operation), ("a", .float64 fa), ("b", .float64 fb)] =
      calculate operation fa fb :=
    Invoke_calculate parseFloat _ operation _ _ rfl rfl rfl
  have hnum : CalculatorTool.Invoke parseFloat
      [("operation", .string operation), ("a", .jsonNumber tx), ("b", .jsonNumber ty)] =
      calculate operation (parseFloat tx).1 (parseFloat ty).1 :=
    Invoke_calculate parseFloat _ operation _ _ rfl rfl rfl
  refine ⟨?_, ?_, ?_, ?_⟩
  · rw [hfloat, hint, eq_ofInt_of_isInt fa x ha, eq_ofInt_of_isInt fb y hb]
  · rw [hnum, hint, parseFloat_of_denotes parseFloat hgo tx x hx hzx,
      parseFloat_of_denotes parseFloat hgo ty y hy hzy]
  · rw [Invoke_calculate parseFloat
      [("operation", .string "add"), ("a", .int 2), ("b", .int 3)] "add"
      (Float64.ofInt 2) (Float64.ofInt 3) rfl rfl rfl]
    decide
  · rw [Invoke_calculate parseFloat
      [("operation", .string "add"), ("a", .float64 (.fin false 4503599627370496 (-51))),
       ("b", .float64 (.fin false 6755399441055744 (-51)))] "add"
      (.fin false 4503599627370496 (-51)) (.fin false 6755399441055744 (-51)) rfl rfl rfl]
    decide

/-- C10 amended, at concrete inputs: `multiply` with 12 and -7, the texts
`1.2e1` and `-7`. -/
theorem Invoke_encodings_agree_witness :
    CalculatorTool.Invoke ParseFloat
        [("operation", .string "multiply"),
         ("a", .float64 (.fin false 6755399441055744 (-49))),
         ("b", .float64 (.fin true 7881299347898368 (-50)))] =
      CalculatorTool.Invoke ParseFloat
        [("operation", .string "multiply"), ("a", .int 12), ("b", .int (-7))] ∧
    CalculatorTool.Invoke ParseFloat
        [("operation", .string "multiply"), ("a", .jsonNumber "1.2e1"),
         ("b", .jsonNumber "-7")] =
      CalculatorTool.Invoke ParseFloat
        [("operation", .string "multiply"), ("a", .int 12), ("b", .int (-7))] ∧
    (CalculatorTool.Invoke ParseFloat
        [("operation", .string "multiply"), ("a", .int 12), ("b", .int (-7))]).1 =
      { Content := "12.00 × -7.00 = -84.00", Error := "" } :=
  ⟨(Invoke_encodings_agree ParseFloat ParseFloat_readsNumbers "multiply" 12 (-7)
      (.fin false 6755399441055744 (-49)) (.fin true 7881299347898368 (-50)) "1.2e1" "-7"
      (by decide) (by decide) (by decide!) (by decide!) (by decide!) (by decide!)).1,
   (Invoke_encodings_agree ParseFloat ParseFloat_readsNumbers "multiply" 12 (-7)
      (.fin false 6755399441055744 (-49)) (.fin true 7881299347898368 (-50)) "1.2e1" "-7"
      (by decide) (by decide) (by decide!) (by decide!) (by decide!) (by decide!)).2.1,
   by decide!⟩

end GoAgent
